import Mathlib

/-!
Verification development for the expression-compilation core of the Malloy
language (packages/malloy/src/lang/ast/ast-expr.ts).

The AST node classes of ast-expr.ts are embedded as one inductive type `Expr`;
the dynamically dispatched methods `translation`, `requestTranslation` and
`apply` become mutually recursive functions over `Expr`.  The per-compilation
diagnostics sink (`log`) is modelled in writer style: every translation
function returns its value together with the list of messages it logged, in
logging order; a JavaScript exception (an internal fault, never a user-level
diagnostic) is modelled as a `crash` result.

Helper modules of the repository that are not part of ast-expr.ts
(ast-types.ts, apply-expr.ts, field-path.ts, malloy_types.ts, the FieldSpace)
are modelled from the specification; each such definition carries a doc
comment starting with `Modelled from the spec:`.
-/

namespace Malloy

/-- The closed set of expression data types (spec section 3). -/
inductive FieldValueType where
  | string
  | number
  | boolean
  | date
  | timestamp
  | null
  | regex
  | error
  | struct
deriving DecidableEq, Repr

/-- Printable name of a data type, as it appears in diagnostics. -/
def fvName : FieldValueType → String
  | .string => "string"
  | .number => "number"
  | .boolean => "boolean"
  | .date => "date"
  | .timestamp => "timestamp"
  | .null => "null"
  | .regex => "regular expression"
  | .error => "error"
  | .struct => "struct"

/-- Modelled from the spec: `isAtomicFieldType` of model/malloy_types.ts
(not under src/).  The atomic field types are string, number, date,
timestamp and boolean. -/
def isAtomicFieldType : FieldValueType → Bool
  | .string => true
  | .number => true
  | .date => true
  | .timestamp => true
  | .boolean => true
  | _ => false

/-- A fragment of generated SQL (spec section 3): literal text, a field
reference, an aggregate call, or a filtered expression.  A filter condition
is a pair of its fragment sequence and its aggregate flag. -/
inductive Fragment where
  | text (s : String)
  | field (path : String)
  | aggregate (function : String) (e : List Fragment) (structPath : Option String)
  | filterExpression (e : List Fragment) (filterList : List (List Fragment × Bool))

/-- A filter condition, as produced by `Filter.getFilterList`: its compiled
fragment sequence paired with its aggregate flag (spec section 6). -/
abbrev FilterCond := List Fragment × Bool

/-- The value of a translated expression: data type, aggregate flag, fragment
sequence, and an optional time granularity (spec section 3). -/
structure ExprValue where
  dataType : FieldValueType
  aggregate : Bool
  value : List Fragment
  timeframe : Option String

/-- Modelled from the spec: `errorFor` of ast-types.ts (not under src/)
returns an `ExprValue` with dataType `error` and an empty fragment
sequence (spec section 4.A).  The reason string is diagnostic-free. -/
def errorFor (_reason : String) : ExprValue :=
  ⟨.error, false, [], none⟩

/-- Modelled from the spec: `compose(left, op, right)` of ast-types.ts
(not under src/) returns `[...left, " op ", ...right]` (spec section 4.A). -/
def compose (left : List Fragment) (op : String) (right : List Fragment) : List Fragment :=
  left ++ [Fragment.text (" " ++ op ++ " ")] ++ right

/-- Modelled from the spec: `compressExpr` of ast-types.ts (not under src/)
merges adjacent literal-text fragments (spec section 3, Compression). -/
def compressExpr : List Fragment → List Fragment
  | [] => []
  | Fragment.text a :: rest =>
    match compressExpr rest with
    | Fragment.text b :: r => Fragment.text (a ++ b) :: r
    | r => Fragment.text a :: r
  | f :: rest => f :: compressExpr rest

/-- Modelled from the spec: a legal-child-type shape `{dataType, aggregate?}`
(spec section 3); the aggregate flag is constrained only when specified. -/
structure FragType where
  dataType : FieldValueType
  aggregate : Option Bool
deriving DecidableEq, Repr

/-- Modelled from the spec: the predefined type shapes of ast-types.ts `FT`
(not under src/).  The base shapes require a non-aggregate value (the
`ExprLogicalOp` class extends `FT.boolT` with `aggregate: true`, so the base
shapes carry an explicit `aggregate: false`). -/
def FT.boolT : FragType := ⟨.boolean, some false⟩

/-- Modelled from the spec: predefined string shape of `FT`. -/
def FT.stringT : FragType := ⟨.string, some false⟩

/-- Modelled from the spec: predefined number shape of `FT`. -/
def FT.numberT : FragType := ⟨.number, some false⟩

/-- Modelled from the spec: predefined date shape of `FT`. -/
def FT.dateT : FragType := ⟨.date, some false⟩

/-- Modelled from the spec: predefined timestamp shape of `FT`. -/
def FT.timestampT : FragType := ⟨.timestamp, some false⟩

/-- Modelled from the spec: predefined null shape of `FT`. -/
def FT.nullT : FragType := ⟨.null, some false⟩

/-- Modelled from the spec: `FT.in` of ast-types.ts (not under src/): a value
matches a legal list when its dataType (and aggregate flag, when the legal
entry specifies one) appears in the list (spec section 4.C).  Named `isIn`
because `in` is reserved in Lean. -/
def FT.isIn (v : ExprValue) (legal : List FragType) : Bool :=
  legal.any fun t =>
    t.dataType == v.dataType &&
      (match t.aggregate with
       | none => true
       | some b => b == v.aggregate)

/-- Modelled from the spec: `FT.inspect` of ast-types.ts (not under src/)
renders a value's type for diagnostics as its dataType name
(spec section 4.C shows messages of the form `Can't use type <dataType>`). -/
def FT.inspect (v : ExprValue) : String :=
  fvName v.dataType

/-- Modelled from the spec: two-value form of `FT.inspect` used by branch
type-mismatch diagnostics. -/
def FT.inspect2 (a b : ExprValue) : String :=
  fvName a.dataType ++ ", " ++ fvName b.dataType

/-- Modelled from the spec: `FT.typeEq` of ast-types.ts (not under src/): two
values are type-equal when their dataTypes match; the loose form (`nullOk`)
additionally treats `null` as equal to anything; aggregate-ness is never part
of type equality (spec section 3). -/
def FT.typeEq (a b : FieldValueType) (nullOk : Bool) : Bool :=
  a == b || (nullOk && (a == FieldValueType.null || b == FieldValueType.null))

/-- `ExpressionDef.typeCheck` (ast-expr.ts lines 82-88): when the value is not
in the legal list, produce the diagnostic
`'<elementType>' Can't use type <inspect>` and fail.  Returned as a pair of
the boolean outcome and the messages logged. -/
def typeCheck (elementType : String) (eVal : ExprValue) (legal : List FragType) :
    Bool × List String :=
  if FT.isIn eVal legal then (true, [])
  else (false, ["'" ++ elementType ++ "' Can't use type " ++ FT.inspect eVal])

/-- Modelled from the spec: `nullsafeNot` of apply-expr.ts (not under src/)
emits SQL that is true when the inner expression is null:
`(x) is null or not (x)` (spec section 4.D). -/
def nullsafeNot (x : List Fragment) : List Fragment :=
  [Fragment.text "("] ++ x ++ [Fragment.text ") is null or not ("] ++ x
    ++ [Fragment.text ")"]

/-- Modelled from the spec: `FieldPath.body` of field-path.ts (not under
src/): the dotted path with its last segment removed (spec section 4.B). -/
def fieldBody (s : String) : String :=
  String.intercalate "." ((s.splitOn ".").dropLast)

/-- Modelled from the spec: a `FieldEntry.type()` result: the entry's data
type and optional aggregate flag (spec section 6). -/
structure FieldEntry where
  type : FieldValueType
  aggregate : Option Bool
deriving DecidableEq, Repr

/-- Modelled from the spec: the external `FieldSpace`: an opaque lookup from
names to field entries (spec sections 3 and 6). -/
abbrev FieldSpace : Type := String → Option FieldEntry

/-- Modelled from the spec: the external `Filter` element (ast-main.ts, not
under src/): all the core consumes is `getFilterList(fs)`, a list of filter
conditions (spec section 6). -/
structure Filter where
  getFilterList : FieldSpace → List FilterCond

/-- Result of a translation step in writer style: a value together with the
diagnostics it logged, or a crash (a thrown JavaScript exception). -/
inductive XR (α : Type) where
  | ok (val : α) (msgs : List String)
  | crash (msg : String)
deriving Repr

/-- Prepend earlier messages onto a later result. -/
def XR.mapMsgs (pre : List String) : XR α → XR α
  | .ok a m => .ok a (pre ++ m)
  | .crash c => .crash c

/-- Sequencing of translation steps: messages accumulate in logging order;
a crash aborts. -/
def XR.bind (x : XR α) (f : α → XR β) : XR β :=
  match x with
  | .ok a m => XR.mapMsgs m (f a)
  | .crash c => .crash c

instance : Monad XR where
  pure a := .ok a []
  bind := XR.bind

/-- Log a list of messages. -/
def logList (ms : List String) : XR Unit := .ok () ms

@[simp] theorem XR.mapMsgs_ok (pre : List String) (a : α) (m : List String) :
    XR.mapMsgs pre (.ok a m) = .ok a (pre ++ m) := rfl

@[simp] theorem XR.mapMsgs_crash (pre : List String) (c : String) :
    XR.mapMsgs pre (.crash c : XR α) = .crash c := rfl

@[simp] theorem XR.ok_bind (a : α) (m : List String) (f : α → XR β) :
    (XR.ok a m) >>= f = XR.mapMsgs m (f a) := rfl

@[simp] theorem XR.crash_bind (c : String) (f : α → XR β) :
    (XR.crash c : XR α) >>= f = XR.crash c := rfl

@[simp] theorem XR.pure_def (a : α) : (pure a : XR α) = XR.ok a [] := rfl

theorem XR.mapMsgs_eq_ok (pre : List String) (x : XR α) (b : α) (m : List String) :
    XR.mapMsgs pre x = .ok b m ↔ ∃ m2, x = .ok b m2 ∧ m = pre ++ m2 := by
  cases x with
  | ok a m0 =>
    simp only [XR.mapMsgs, XR.ok.injEq]
    constructor
    · rintro ⟨rfl, rfl⟩
      exact ⟨m0, ⟨rfl, rfl⟩, rfl⟩
    · rintro ⟨m2, ⟨rfl, h2⟩, rfl⟩
      rw [h2]
      exact ⟨rfl, rfl⟩
  | crash c =>
    simp only [XR.mapMsgs_crash]
    constructor
    · intro h
      exact absurd h (by simp)
    · rintro ⟨m2, h2, _⟩
      exact absurd h2 (by simp)

theorem XR.bind_eq_ok (x : XR α) (f : α → XR β) (b : β) (m : List String) :
    x >>= f = .ok b m ↔ ∃ a m1 m2, x = .ok a m1 ∧ f a = .ok b m2 ∧ m = m1 ++ m2 := by
  constructor
  · intro h
    cases x with
    | ok a m1 =>
      cases hf : f a with
      | ok b2 m2 =>
        refine ⟨a, m1, m2, rfl, ?_, ?_⟩ <;>
          simp only [XR.ok_bind, hf, XR.mapMsgs_ok, XR.ok.injEq] at h ⊢ <;> tauto
      | crash c =>
        rw [XR.ok_bind, hf] at h
        exact XR.noConfusion h
    | crash c =>
      rw [XR.crash_bind] at h
      exact XR.noConfusion h
  · rintro ⟨a, m1, m2, hx, hf, hm⟩
    subst hx hm
    simp [hf]

/-- The operator of `ExprLogicalOp` (`"and" | "or"`). -/
inductive LogicalOp where
  | andOp
  | orOp
deriving DecidableEq, Repr

/-- The operator string of a logical operator. -/
def LogicalOp.str : LogicalOp → String
  | .andOp => "and"
  | .orOp => "or"

/-- The operator of `ExprAddSub` (`"+" | "-"`). -/
inductive AddSubOp where
  | plus
  | minus
deriving DecidableEq, Repr

/-- The operator string of an additive operator. -/
def AddSubOp.str : AddSubOp → String
  | .plus => "+"
  | .minus => "-"

/-- The operator of `ExprMulDiv` (`"*" | "/"`). -/
inductive MulDivOp where
  | times
  | div
deriving DecidableEq, Repr

/-- The operator string of a multiplicative operator. -/
def MulDivOp.str : MulDivOp → String
  | .times => "*"
  | .div => "/"

/-- The operator of `ExprAlternationTree` (`"|" | "&"`). -/
inductive AltOp where
  | pipe
  | amp
deriving DecidableEq, Repr

/-- The `TimeType` of an `ExprTime` node (`"date" | "timestamp"`). -/
inductive TimeType where
  | date
  | timestamp
deriving DecidableEq, Repr

/-- The data type denoted by a `TimeType`. -/
def TimeType.fv : TimeType → FieldValueType
  | .date => .date
  | .timestamp => .timestamp

/-- The `CastType` of ast-expr.ts:
`"string" | "number" | "boolean" | "date" | "timestamp"`. -/
inductive CastType where
  | string
  | number
  | boolean
  | date
  | timestamp
deriving DecidableEq, Repr

/-- The data type denoted by a `CastType`. -/
def CastType.fv : CastType → FieldValueType
  | .string => .string
  | .number => .number
  | .boolean => .boolean
  | .date => .date
  | .timestamp => .timestamp

/-- The SQL spelling of a cast target: `number` casts as `float64`
(ast-expr.ts line 702). -/
def CastType.castTo : CastType → String
  | .number => "float64"
  | t => fvName t.fv

/-- The expression AST of ast-expr.ts, one constructor per concrete node
class.  A `Pick` choice is a `PickWhen`: an optional pick expression paired
with its when expression.  An `ExprCase` clause is a `WhenClause` pair
(whenThis, thenThis). -/
inductive Expr where
  | ExprString (value : String)
  | ExprNumber (n : String)
  | ExprRegEx (regex : String)
  | ExprTime (timeType : TimeType) (value : List Fragment) (aggregate : Bool)
  | ExprNot (expr : Expr)
  | Boolean (value : Bool)
  | ExprLogicalOp (left : Expr) (op : LogicalOp) (right : Expr)
  | ExprField (fieldName : String)
  | ExprNULL
  | ExprParens (expr : Expr)
  | ExprMinus (expr : Expr)
  | ExprAddSub (left : Expr) (op : AddSubOp) (right : Expr)
  | ExprMulDiv (left : Expr) (op : MulDivOp) (right : Expr)
  | ExprAlternationTree (left : Expr) (op : AltOp) (right : Expr)
  | ExprMin (expr : Expr)
  | ExprMax (expr : Expr)
  | ExprCountDistinct (expr : Expr)
  | ExprCount (source : Option String)
  | ExprAvg (expr : Option Expr) (source : Option String)
  | ExprSum (expr : Option Expr) (source : Option String)
  | WhenClause (whenThis : Expr) (thenThis : Expr)
  | ExprCase (when : List (Expr × Expr)) (elseClause : Option Expr)
  | ExprFilter (expr : Expr) (filter : Filter)
  | ExprCast (expr : Expr) (castType : CastType) (safe : Bool)
  | Range (first : Expr) (last : Expr)
  | Pick (choices : List (Option Expr × Expr)) (elsePick : Option Expr)

/-- `legalChildTypes` of `ExprLogicalOp` (ast-expr.ts line 285):
boolean, aggregate or not. -/
def legalLogical : List FragType :=
  [FT.boolT, { FT.boolT with aggregate := some true }]

/-- `legalChildTypes` of `ExprNot` (ast-expr.ts line 227). -/
def legalNot : List FragType := [FT.boolT, FT.nullT]

/-- `legalChildTypes` of `ExprFilter` (ast-expr.ts line 649). -/
def legalFilter : List FragType :=
  [FT.stringT, FT.numberT, FT.dateT, FT.timestampT]

/-- `legalChildTypes` of `ExprMin`, `ExprMax` and `ExprCountDistinct`
(ast-expr.ts lines 482, 493, 504). -/
def legalMinMax : List FragType :=
  [FT.numberT, FT.stringT, FT.dateT, FT.timestampT]

/-- `legalChildTypes` of the base `ExprAggregateFunction`
(ast-expr.ts line 421), used by `sum` and `avg`. -/
def legalAggregate : List FragType := [FT.numberT]

/-- `thisValueToTimestamp` (ast-expr.ts lines 104-110), on values: a
non-timestamp value is wrapped in `TIMESTAMP(...)`. -/
def valueToTimestamp (v : ExprValue) : ExprValue :=
  if v.dataType = .timestamp then v
  else
    ⟨.timestamp, v.aggregate,
      compressExpr ([Fragment.text "TIMESTAMP("] ++ v.value ++ [Fragment.text ")"]),
      none⟩

/-- Modelled from the spec: the value-level core of `applyBinary` of
apply-expr.ts (not under src/), following the contracts of spec section 4.D:
numeric arithmetic requires both sides numeric; comparisons produce boolean,
with a mixed date/timestamp comparison promoting the coarser side via
`TIMESTAMP(...)`; `and`/`or` require both sides boolean; `~` matches a string
against a regular expression and `!~` is its null-safe negation.  Type
mismatches log a `Can't use type` diagnostic and produce an error value
(granular-equality truncation is elided: same-type comparisons compose
directly). -/
def applyBinaryV (lv : ExprValue) (op : String) (rv : ExprValue) :
    ExprValue × List String :=
  if op = "+" ∨ op = "-" ∨ op = "*" ∨ op = "/" then
    if lv.dataType = .number ∧ rv.dataType = .number then
      (⟨.number, lv.aggregate || rv.aggregate, compose lv.value op rv.value, none⟩, [])
    else
      (errorFor "numeric arithmetic type",
        ["'" ++ op ++ "' Can't use type " ++ FT.inspect lv ++ " with " ++ FT.inspect rv])
  else if op = "=" ∨ op = "!=" ∨ op = "<" ∨ op = "<=" ∨ op = ">" ∨ op = ">=" then
    if lv.dataType = rv.dataType then
      (⟨.boolean, lv.aggregate || rv.aggregate, compose lv.value op rv.value, none⟩, [])
    else if (lv.dataType = .date ∧ rv.dataType = .timestamp) ∨
        (lv.dataType = .timestamp ∧ rv.dataType = .date) then
      (⟨.boolean, lv.aggregate || rv.aggregate,
        compose (valueToTimestamp lv).value op (valueToTimestamp rv).value, none⟩, [])
    else
      (errorFor "comparison type",
        ["'" ++ op ++ "' Can't use type " ++ FT.inspect lv ++ " with " ++ FT.inspect rv])
  else if op = "and" ∨ op = "or" then
    if lv.dataType = .boolean ∧ rv.dataType = .boolean then
      (⟨.boolean, lv.aggregate || rv.aggregate, compose lv.value op rv.value, none⟩, [])
    else
      (errorFor "logical operation type",
        ["'" ++ op ++ "' Can't use type " ++ FT.inspect lv ++ " with " ++ FT.inspect rv])
  else if op = "~" then
    if lv.dataType = .string ∧ rv.dataType = .regex then
      (⟨.boolean, lv.aggregate || rv.aggregate, compose lv.value "~" rv.value, none⟩, [])
    else
      (errorFor "regex match type",
        ["'~' Can't use type " ++ FT.inspect lv ++ " with " ++ FT.inspect rv])
  else if op = "!~" then
    if lv.dataType = .string ∧ rv.dataType = .regex then
      (⟨.boolean, lv.aggregate || rv.aggregate,
        nullsafeNot (compose lv.value "~" rv.value), none⟩, [])
    else
      (errorFor "regex match type",
        ["'!~' Can't use type " ++ FT.inspect lv ++ " with " ++ FT.inspect rv])
  else
    (errorFor "unsupported operator", ["unsupported operator '" ++ op ++ "'"])

/-- Final steps of `ExprAggregateFunction.translation` (ast-expr.ts lines
462-477): type-check the determined expression with its aggregate flag forced
to `false`; on success emit the aggregate fragment with `aggregate: true` and
the function's return type (the child's type for min/max, number otherwise);
on failure return the type-check diagnostic and an error value. -/
def aggFinish (func : String) (legal : List FragType) (returnsChild : Bool)
    (exprVal : ExprValue) (source : Option String) : XR ExprValue :=
  let (tOk, ms) := typeCheck func { exprVal with aggregate := false } legal
  if tOk then
    .ok ⟨(if returnsChild then exprVal.dataType else .number), true,
      [Fragment.aggregate func exprVal.value source], none⟩ []
  else
    .ok (errorFor "aggregate type check") ms

/-- The `source` resolution of `ExprAggregateFunction.translation`
(ast-expr.ts lines 437-457): when a source path resolves to an atomic field,
it becomes the expression and its body (the path minus its last segment)
becomes the remaining source. -/
def aggSource (fs : FieldSpace) (exprVal : Option ExprValue) (source : Option String) :
    Option ExprValue × Option String :=
  match source with
  | none => (exprVal, none)
  | some src =>
    match fs src with
    | none => (exprVal, some src)
    | some foot =>
      if isAtomicFieldType foot.type then
        let b := fieldBody src
        (some ⟨foot.type, foot.aggregate.getD false, [Fragment.field src], none⟩,
          if b.length > 0 then some b else none)
      else (exprVal, some src)

/-- `ExprAggregateFunction.translation` after the optional child expression
has been translated: resolve the source, report a missing expression, or
finish (ast-expr.ts lines 435-478). -/
def aggComplete (func : String) (legal : List FragType) (returnsChild : Bool)
    (fs : FieldSpace) (exprVal : Option ExprValue) (source : Option String) :
    XR ExprValue :=
  match aggSource fs exprVal source with
  | (none, _) =>
    .ok (errorFor "agggregate without expression")
      ["Missing expression for aggregate function"]
  | (some ev, src) => aggFinish func legal returnsChild ev src

/-- Tail of `ExprCase.translation` (ast-expr.ts lines 634-643): an
uncomputable type is a diagnosed error; otherwise wrap the accumulated
fragments in `CASE ... END`. -/
def caseFinish (rt : Option ExprValue) (agg : Bool) (frags : List Fragment) :
    XR ExprValue :=
  match rt with
  | none => .ok (errorFor "typeless case") ["case statement type not computable"]
  | some v =>
    .ok ⟨v.dataType, agg, [Fragment.text "CASE "] ++ frags ++ [Fragment.text " END"], none⟩ []

/-- Tail of `Pick.apply` (ast-expr.ts lines 850-863) after the else part has
been translated: default the return type to the else value, require loose
type equality, and wrap the accumulated fragments in `CASE ... ELSE ... END`. -/
def pickApplyDone (rt : Option ExprValue) (anyAggregate : Bool)
    (frags : List Fragment) (elseVal : ExprValue) : XR ExprValue :=
  let returnType := match rt with | some rtv => rtv | none => elseVal
  if FT.typeEq returnType.dataType elseVal.dataType true then
    .ok ⟨returnType.dataType, anyAggregate || elseVal.aggregate,
      [Fragment.text "CASE"] ++ frags ++ [Fragment.text " ELSE "]
        ++ elseVal.value ++ [Fragment.text " END"], none⟩ []
  else
    .ok (errorFor "pick else type")
      ["else value types do not match " ++ FT.inspect2 returnType elseVal]

/-- Prepend a clause's fragments onto the result of the remaining loop
iterations (the loop accumulators of `ExprCase.translation` and
`Pick.apply`). -/
def stepCons (cf : List Fragment) :
    Sum ExprValue (Option ExprValue × Bool × List Fragment) →
      Sum ExprValue (Option ExprValue × Bool × List Fragment)
  | .inl e => .inl e
  | .inr (r, a, fr) => .inr (r, a, cf ++ fr)

/-- The value-mode checking loop of `Pick.translation` (ast-expr.ts lines
892-917): every `when` must be boolean, every `pick` loosely type-equal to
the return type; aggregate-ness accumulates; each choice contributes
`WHEN ... THEN ...` fragments. -/
def pickCheck (returnType : ExprValue) (cvs : List (ExprValue × ExprValue))
    (agg : Bool) : Sum ExprValue (Bool × List Fragment) × List String :=
  match cvs with
  | [] => (.inr (agg, []), [])
  | (pv, wv) :: rest =>
    if FT.typeEq wv.dataType .boolean false = false then
      (.inl (errorFor "pick when type"),
        ["Cannot generate value from pick. WHEN value of type " ++ FT.inspect wv])
    else if FT.typeEq returnType.dataType pv.dataType true = false then
      (.inl (errorFor "pick value type"),
        ["pick value types do not match " ++ FT.inspect2 returnType pv])
    else
      match pickCheck returnType rest (agg || pv.aggregate || wv.aggregate) with
      | (.inl e, ms) => (.inl e, ms)
      | (.inr (aggF, frags), ms) =>
        (.inr (aggF,
          [Fragment.text " WHEN "] ++ wv.value ++ [Fragment.text " THEN "]
            ++ pv.value ++ frags), ms)

mutual

/-- `translation` of ast-expr.ts: the per-node `translation(fs)` methods,
dispatched over the node's class. -/
def translation (e : Expr) (fs : FieldSpace) : XR ExprValue :=
  match e with
  | .ExprString v => .ok ⟨.string, false, [Fragment.text v], none⟩ []
  | .ExprNumber n => .ok ⟨.number, false, [Fragment.text n], none⟩ []
  | .ExprRegEx r => .ok ⟨.regex, false, [Fragment.text ("r'" ++ r ++ "'")], none⟩ []
  | .ExprTime tt v agg => .ok ⟨tt.fv, agg, v, none⟩ []
  | .ExprNot ex => do
      let notThis ← translation ex fs
      let (tOk, ms) := typeCheck "not" notThis legalNot
      if tOk then
        pure { notThis with dataType := .boolean, value := nullsafeNot notThis.value }
      else .ok (errorFor "not requires boolean") ms
  | .Boolean b =>
      .ok ⟨.boolean, false, [Fragment.text (if b then "true" else "false")], none⟩ []
  | .ExprLogicalOp l op r => do
      let left ← translation l fs
      let right ← translation r fs
      let (ok1, ms1) := typeCheck "logical operator" left legalLogical
      if ok1 then
        let (ok2, ms2) := typeCheck "logical operator" right legalLogical
        if ok2 then
          .ok ⟨.boolean, left.aggregate || right.aggregate,
            compose left.value op.str right.value, none⟩ []
        else .ok (errorFor "logial required boolean") ms2
      else .ok (errorFor "logial required boolean") ms1
  | .ExprField name =>
      match fs name with
      | some entry =>
        .ok ⟨entry.type, entry.aggregate.getD false, [Fragment.field name], none⟩ []
      | none =>
        .ok (errorFor ("undefined " ++ name))
          ["Reference to undefined field '" ++ name]
  | .ExprNULL => .ok ⟨.null, false, [Fragment.text "NULL"], none⟩ []
  | .ExprParens ex => do
      let subExpr ← translation ex fs
      pure { subExpr with
        value := [Fragment.text "("] ++ subExpr.value ++ [Fragment.text ")"] }
  | .ExprMinus ex => do
      let expr ← translation ex fs
      let (tOk, ms) := typeCheck "unary minus" expr [FT.numberT]
      if tOk then
        if expr.value.length > 1 then
          pure { expr with
            value := [Fragment.text "-("] ++ expr.value ++ [Fragment.text ")"] }
        else
          pure { expr with value := [Fragment.text "-"] ++ expr.value }
      else .ok (errorFor "negate requires number") ms
  | .ExprAddSub l op r => applyE r fs op.str l
  | .ExprMulDiv l op r => applyE r fs op.str l
  | .ExprAlternationTree _ _ _ =>
      .ok (errorFor "no value from alternation tree") ["Alternation tree has no value"]
  | .ExprMin ex => do
      let v ← translation ex fs
      aggComplete "min" legalMinMax true fs (some v) none
  | .ExprMax ex => do
      let v ← translation ex fs
      aggComplete "max" legalMinMax true fs (some v) none
  | .ExprCountDistinct ex => do
      let v ← translation ex fs
      aggComplete "count_distinct" legalMinMax false fs (some v) none
  | .ExprCount source =>
      .ok ⟨.number, true, [Fragment.aggregate "count" [] source], none⟩ []
  | .ExprAvg exprOpt source =>
      (match exprOpt with
       | some ex => do
          let v ← translation ex fs
          aggComplete "avg" legalAggregate false fs (some v) source
       | none => aggComplete "avg" legalAggregate false fs none source)
  | .ExprSum exprOpt source =>
      (match exprOpt with
       | some ex => do
          let v ← translation ex fs
          aggComplete "sum" legalAggregate false fs (some v) source
       | none => aggComplete "sum" legalAggregate false fs none source)
  | .WhenClause _ _ => .crash "expression did something unxpected with 'WHEN'"
  | .ExprCase whens elseClause => do
      let step ← caseLoop whens fs none false
      match step with
      | .inl errVal => pure errVal
      | .inr (rt, agg, frags) =>
        match elseClause with
        | some els => do
            let elseExpr ← translation els fs
            let agg2 := agg || elseExpr.aggregate
            let frags2 := frags ++ [Fragment.text " ELSE "] ++ elseExpr.value
            if elseExpr.dataType ≠ .null then
              match rt with
              | some rtv =>
                if FT.typeEq rtv.dataType elseExpr.dataType false then
                  caseFinish (some elseExpr) agg2 frags2
                else
                  .ok (errorFor "else typecheck")
                    ["Mismatched ELSE clause type, " ++ FT.inspect2 rtv elseExpr]
              | none => caseFinish (some elseExpr) agg2 frags2
            else caseFinish rt agg2 frags2
        | none => caseFinish rt agg frags
  | .ExprFilter ex flt => do
      let testList := flt.getFilterList fs
      let resultExpr ← translation ex fs
      if testList.any (fun c => c.2) then
        .ok (errorFor "no filter on aggregate")
          ["Cannot filter a field with an aggregate computation"]
      else if resultExpr.aggregate = false then
        pure resultExpr
      else
        let (tOk, ms) :=
          typeCheck "filtered expression" { resultExpr with aggregate := false } legalFilter
        if tOk then
          pure { resultExpr with
            value := [Fragment.filterExpression resultExpr.value testList] }
        else
          .ok (errorFor "cannot filter type")
            (ms ++ ["Cannot filter '" ++ fvName resultExpr.dataType ++ "' data"])
  | .ExprCast ex t safe => do
      let expr ← translation ex fs
      let cast := if safe then "safe_cast" else "cast"
      let castValue :=
        if t = .timestamp ∧ expr.dataType = .date then
          [Fragment.text "TIMESTAMP("] ++ expr.value ++ [Fragment.text ")"]
        else
          [Fragment.text (cast ++ "(")] ++ expr.value
            ++ [Fragment.text (" as " ++ t.castTo ++ ")")]
      if t = .date ∧ expr.dataType = .timestamp then
        pure ⟨.date, expr.aggregate,
          compressExpr ([Fragment.text "DATE("] ++ expr.value ++ [Fragment.text ")"]),
          some "day"⟩
      else
        pure ⟨t.fv, expr.aggregate, compressExpr castValue, expr.timeframe⟩
  | .Range _ _ => .ok (errorFor "a range is not a value") []
  | .Pick choices elsePick =>
      match elsePick with
      | none =>
        .ok (errorFor "no value for partial pick")
          ["'pick' has no value, must specify 'else' or use ':'"]
      | some ep => do
          let step ← pickTransLoop choices fs
          match step with
          | .inl errVal => pure errVal
          | .inr choiceValues =>
            match choiceValues with
            | [] => XR.crash "TypeError: choiceValues[0] is undefined"
            | c0 :: _ => do
              let returnType := c0.1
              let (chk, ms) := pickCheck returnType choiceValues returnType.aggregate
              logList ms
              match chk with
              | .inl errVal => pure errVal
              | .inr (anyAggregate, frags) => do
                  let elseValue ← translation ep fs
                  if FT.typeEq returnType.dataType elseValue.dataType true then
                    pure ⟨returnType.dataType, anyAggregate || elseValue.aggregate,
                      [Fragment.text "CASE"] ++ frags ++ [Fragment.text " ELSE "]
                        ++ elseValue.value ++ [Fragment.text " END"], none⟩
                  else
                    .ok (errorFor "pick vlaue type mismatch")
                      ["pick value types do not match " ++ FT.inspect2 returnType elseValue]
  termination_by 3 * sizeOf e

/-- `requestTranslation` of ast-expr.ts: denial (`none`) for partial
expressions, forwarding for parentheses, the find-based rule for `Pick`, and
the node's translation by default. -/
def requestTranslation (e : Expr) (fs : FieldSpace) : XR (Option ExprValue) :=
  match e with
  | .ExprParens ex => requestTranslation ex fs
  | .ExprAlternationTree _ _ _ => .ok none []
  | .Range _ _ => .ok none []
  | .Pick choices elsePick =>
      match elsePick with
      | none => .ok none []
      | some ep => do
          let found ← pickFind choices fs
          if found then pure none
          else do
            let v ← translation (.Pick choices (some ep)) fs
            pure (some v)
  | ex => do
      let v ← translation ex fs
      pure (some v)
  termination_by 3 * sizeOf e + 1

/-- `apply` of ast-expr.ts: the partial-expression composition method,
dispatched on the right-hand node (`self`); `other` is the left operand.
The default delegates to the binary engine after translating both sides. -/
def applyE (self : Expr) (fs : FieldSpace) (op : String) (other : Expr) : XR ExprValue :=
  match self with
  | .ExprParens ex => applyE ex fs op other
  | .ExprAlternationTree l aop r => do
      let choice1 ← applyE l fs op other
      let choice2 ← applyE r fs op other
      pure ⟨.boolean, choice1.aggregate || choice2.aggregate,
        compose choice1.value (match aop with | .amp => "and" | .pipe => "or")
          choice2.value, none⟩
  | .Range f l =>
      if op = "=" ∨ op = "!=" then
        let op1 := if op = "=" then ">=" else "<"
        let op2 := if op = "=" then "and" else "or"
        let op3 := if op = "=" then "<" else ">="
        do
          let fromValue ← applyE f fs op1 other
          let toValue ← applyE l fs op3 other
          pure ⟨.boolean, fromValue.aggregate || toValue.aggregate,
            compose fromValue.value op2 toValue.value, none⟩
      else if op = ">" then applyE l fs ">=" other
      else if op = ">=" then applyE f fs ">=" other
      else if op = "<" then applyE f fs "<" other
      else if op = "<=" then applyE l fs "<" other
      else XR.crash "mysterious error in range computation"
  | .Pick choices elsePick => do
      let step ← pickApplyLoop choices fs other none false
      match step with
      | .inl errVal => pure errVal
      | .inr (rt, anyAggregate, frags) =>
        match elsePick with
        | some ep => do
            let elseVal ← translation ep fs
            pickApplyDone rt anyAggregate frags elseVal
        | none => do
            let elseVal ← translation other fs
            pickApplyDone rt anyAggregate frags elseVal
  | s => do
      let lv ← translation other fs
      let rv ← translation s fs
      let (v, ms) := applyBinaryV lv op rv
      logList ms
      pure v
  termination_by 3 * (sizeOf self + sizeOf other) + 2

/-- The WHEN-clause loop of `ExprCase.translation` (ast-expr.ts lines
603-618), threading the inferred return type and aggregate flag. -/
def caseLoop (whens : List (Expr × Expr)) (fs : FieldSpace) (rt : Option ExprValue)
    (agg : Bool) : XR (Sum ExprValue (Option ExprValue × Bool × List Fragment)) :=
  match whens with
  | [] => .ok (.inr (rt, agg, [])) []
  | (w, t) :: rest => do
      let whenExpr ← translation w fs
      let thenExpr ← translation t fs
      let agg2 := agg || whenExpr.aggregate || thenExpr.aggregate
      let cf := [Fragment.text "WHEN "] ++ whenExpr.value ++ [Fragment.text " THEN "]
        ++ thenExpr.value
      if thenExpr.dataType ≠ .null then
        match rt with
        | some rtv =>
          if FT.typeEq rtv.dataType thenExpr.dataType false then do
            let res ← caseLoop rest fs (some thenExpr) agg2
            pure (stepCons cf res)
          else
            .ok (.inl (errorFor "then typecheck"))
              ["Mismatched THEN clause types, " ++ FT.inspect2 rtv thenExpr]
        | none => do
            let res ← caseLoop rest fs (some thenExpr) agg2
            pure (stepCons cf res)
      else do
        let res ← caseLoop rest fs rt agg2
        pure (stepCons cf res)
  termination_by 3 * sizeOf whens

/-- The `find` of `Pick.requestTranslation` (ast-expr.ts lines 817-824):
scan the choices for one with no pick value or with a when whose own
`requestTranslation` denies. -/
def pickFind (choices : List (Option Expr × Expr)) (fs : FieldSpace) : XR Bool :=
  match choices with
  | [] => .ok false []
  | (p, w) :: rest =>
    match p with
    | none => .ok true []
    | some _ => do
        let r ← requestTranslation w fs
        match r with
        | none => pure true
        | some _ => pickFind rest fs
  termination_by 3 * sizeOf choices + 1

/-- The choice-collection loop of `Pick.translation` (ast-expr.ts lines
873-887): reject partial choices, then translate each pick and when. -/
def pickTransLoop (choices : List (Option Expr × Expr)) (fs : FieldSpace) :
    XR (Sum ExprValue (List (ExprValue × ExprValue))) :=
  match choices with
  | [] => .ok (.inr []) []
  | (p, w) :: rest =>
    match p with
    | none =>
      .ok (.inl (errorFor "no value for partial pick"))
        ["pick with no value can only be used with apply"]
    | some pe => do
        let pickWhen ← requestTranslation w fs
        match pickWhen with
        | none =>
          .ok (.inl (errorFor "partial when"))
            ["pick with partial when can only be used with apply"]
        | some _ => do
            let pv ← translation pe fs
            let wv ← translation w fs
            let res ← pickTransLoop rest fs
            pure (match res with
                  | .inl e => Sum.inl e
                  | .inr cvs => Sum.inr ((pv, wv) :: cvs))
  termination_by 3 * sizeOf choices

/-- The then-expression of a `Pick.apply` choice (ast-expr.ts lines 834-836):
the choice's pick when present, otherwise the applied expression `other`. -/
def pickThen (p : Option Expr) (other : Expr) (fs : FieldSpace) : XR ExprValue :=
  match p with
  | some pe => translation pe fs
  | none => translation other fs
  termination_by 3 * (sizeOf p + sizeOf other) + 1

/-- The choice loop of `Pick.apply` (ast-expr.ts lines 832-849): each when is
applied against `other` with `=`, each missing pick defaults to `other`, and
the first then-value fixes the return type. -/
def pickApplyLoop (choices : List (Option Expr × Expr)) (fs : FieldSpace)
    (other : Expr) (rt : Option ExprValue) (agg : Bool) :
    XR (Sum ExprValue (Option ExprValue × Bool × List Fragment)) :=
  match choices with
  | [] => .ok (.inr (rt, agg, [])) []
  | (p, w) :: rest => do
      let whenExpr ← applyE w fs "=" other
      let thenExpr ← pickThen p other fs
      let agg2 := agg || whenExpr.aggregate || thenExpr.aggregate
      let cf := [Fragment.text " WHEN "] ++ whenExpr.value ++ [Fragment.text " THEN "]
        ++ thenExpr.value
      match rt with
      | some rtv =>
        if FT.typeEq rtv.dataType thenExpr.dataType true then do
          let res ← pickApplyLoop rest fs other (some rtv) agg2
          pure (stepCons cf res)
        else
          .ok (.inl (errorFor "pick value type"))
            ["pick value types do not match " ++ FT.inspect2 rtv thenExpr]
      | none => do
          let res ← pickApplyLoop rest fs other (some thenExpr) agg2
          pure (stepCons cf res)
  termination_by 3 * (sizeOf choices + sizeOf other) + 2

end

/-- A field space with no fields, for concrete evaluations. -/
def fsEmpty : FieldSpace := fun _ => none

/-- A field space with a non-aggregate number field `x` and an aggregate
number field `sold`, for concrete evaluations. -/
def fsX : FieldSpace := fun n =>
  if n = "x" then some ⟨.number, some false⟩
  else if n = "sold" then some ⟨.number, some true⟩
  else none

/-- C1: `Range(first, last).apply(fs, op, v)` produces, for `=`, the boolean
value `(v >= first) and (v < last)`; for `!=`, `(v < first) or (v >= last)`;
for `>`, `v >= last`; for `>=`, `v >= first`; for `<`, `v < first`; for `<=`,
`v < last`; for `=` and `!=` the aggregate flag is the OR of the two
sub-applications' flags and the dataType is boolean (ast-expr.ts lines
741-776). -/
theorem range_apply_spec (f l v : Expr) (fs : FieldSpace)
    (fvGe fvLt tvGe tvLt : ExprValue) (mfGe mfLt mtGe mtLt : List String)
    (hfGe : applyE f fs ">=" v = .ok fvGe mfGe)
    (hfLt : applyE f fs "<" v = .ok fvLt mfLt)
    (htGe : applyE l fs ">=" v = .ok tvGe mtGe)
    (htLt : applyE l fs "<" v = .ok tvLt mtLt) :
    applyE (.Range f l) fs "=" v =
      .ok ⟨.boolean, fvGe.aggregate || tvLt.aggregate,
        compose fvGe.value "and" tvLt.value, none⟩ (mfGe ++ mtLt) ∧
    applyE (.Range f l) fs "!=" v =
      .ok ⟨.boolean, fvLt.aggregate || tvGe.aggregate,
        compose fvLt.value "or" tvGe.value, none⟩ (mfLt ++ mtGe) ∧
    applyE (.Range f l) fs ">" v = applyE l fs ">=" v ∧
    applyE (.Range f l) fs ">=" v = applyE f fs ">=" v ∧
    applyE (.Range f l) fs "<" v = applyE f fs "<" v ∧
    applyE (.Range f l) fs "<=" v = applyE l fs "<" v := by
  refine ⟨?_, ?_, ?_, ?_, ?_, ?_⟩ <;> simp [applyE, hfGe, hfLt, htGe, htLt]

/-- C1 witness: `x = 1 to 10` over a number field `x` becomes
`x >= 1 and x < 10`, non-aggregate boolean. -/
theorem range_apply_spec_witness :
    applyE (.Range (.ExprNumber "1") (.ExprNumber "10")) fsX "=" (.ExprField "x") =
      .ok ⟨.boolean, false,
        compose (compose [Fragment.field "x"] ">=" [Fragment.text "1"]) "and"
          (compose [Fragment.field "x"] "<" [Fragment.text "10"]), none⟩ [] :=
  (range_apply_spec (.ExprNumber "1") (.ExprNumber "10") (.ExprField "x") fsX
    ⟨.boolean, false, compose [Fragment.field "x"] ">=" [Fragment.text "1"], none⟩
    ⟨.boolean, false, compose [Fragment.field "x"] "<" [Fragment.text "1"], none⟩
    ⟨.boolean, false, compose [Fragment.field "x"] ">=" [Fragment.text "10"], none⟩
    ⟨.boolean, false, compose [Fragment.field "x"] "<" [Fragment.text "10"], none⟩
    [] [] [] []
    (by simp [applyE, translation, fsX, applyBinaryV, logList])
    (by simp [applyE, translation, fsX, applyBinaryV, logList])
    (by simp [applyE, translation, fsX, applyBinaryV, logList])
    (by simp [applyE, translation, fsX, applyBinaryV, logList])).1

/-- C2: `ExprAlternationTree(l, op, r).apply(fs, applyOp, other)` equals the
composition of `(other applyOp l)` and `(other applyOp r)` joined by `or`
for `|` and by `and` for `&`, with dataType boolean and aggregate flag the OR
of the two choices' flags (ast-expr.ts lines 393-405). -/
theorem alternation_apply_spec (l r v : Expr) (applyOp : String) (fs : FieldSpace)
    (c1 c2 : ExprValue) (m1 m2 : List String)
    (h1 : applyE l fs applyOp v = .ok c1 m1)
    (h2 : applyE r fs applyOp v = .ok c2 m2) :
    applyE (.ExprAlternationTree l .pipe r) fs applyOp v =
      .ok ⟨.boolean, c1.aggregate || c2.aggregate,
        compose c1.value "or" c2.value, none⟩ (m1 ++ m2) ∧
    applyE (.ExprAlternationTree l .amp r) fs applyOp v =
      .ok ⟨.boolean, c1.aggregate || c2.aggregate,
        compose c1.value "and" c2.value, none⟩ (m1 ++ m2) := by
  constructor <;> simp [applyE, h1, h2]

/-- C2 witness: `x = (1 | 2)` over a number field `x` becomes
`x = 1 or x = 2`, non-aggregate boolean. -/
theorem alternation_apply_spec_witness :
    applyE (.ExprAlternationTree (.ExprNumber "1") .pipe (.ExprNumber "2")) fsX
        "=" (.ExprField "x") =
      .ok ⟨.boolean, false,
        compose (compose [Fragment.field "x"] "=" [Fragment.text "1"]) "or"
          (compose [Fragment.field "x"] "=" [Fragment.text "2"]), none⟩ [] :=
  (alternation_apply_spec (.ExprNumber "1") (.ExprNumber "2") (.ExprField "x") "=" fsX
    ⟨.boolean, false, compose [Fragment.field "x"] "=" [Fragment.text "1"], none⟩
    ⟨.boolean, false, compose [Fragment.field "x"] "=" [Fragment.text "2"], none⟩
    [] []
    (by simp [applyE, translation, fsX, applyBinaryV, logList])
    (by simp [applyE, translation, fsX, applyBinaryV, logList])).1

/-- C9: `ExprCast(e, t, safe)` emits `cast(e as t)` (`safe_cast` when safe),
except that casting a date value to timestamp emits `TIMESTAMP(e)` and
casting a timestamp value to date emits `DATE(e)` with timeframe `day`;
the result's dataType equals `t` and the operand's aggregate flag is
preserved (ast-expr.ts lines 700-722). -/
theorem cast_translation_spec (e : Expr) (t : CastType) (safe : Bool)
    (fs : FieldSpace) (ev : ExprValue) (m : List String)
    (h : translation e fs = .ok ev m) :
    (t = .timestamp → ev.dataType = .date →
      translation (.ExprCast e t safe) fs =
        .ok ⟨.timestamp, ev.aggregate,
          compressExpr ([Fragment.text "TIMESTAMP("] ++ ev.value ++ [Fragment.text ")"]),
          ev.timeframe⟩ m) ∧
    (t = .date → ev.dataType = .timestamp →
      translation (.ExprCast e t safe) fs =
        .ok ⟨.date, ev.aggregate,
          compressExpr ([Fragment.text "DATE("] ++ ev.value ++ [Fragment.text ")"]),
          some "day"⟩ m) ∧
    (¬(t = .timestamp ∧ ev.dataType = .date) → ¬(t = .date ∧ ev.dataType = .timestamp) →
      translation (.ExprCast e t safe) fs =
        .ok ⟨t.fv, ev.aggregate,
          compressExpr ([Fragment.text ((if safe then "safe_cast" else "cast") ++ "(")]
            ++ ev.value ++ [Fragment.text (" as " ++ t.castTo ++ ")")]),
          ev.timeframe⟩ m) := by
  refine ⟨?_, ?_, ?_⟩
  · intro ht hd
    subst ht
    simp [translation, h, hd, CastType.fv]
  · intro ht hd
    subst ht
    simp [translation, h, hd]
  · intro h1 h2
    simp [translation, h, h1, h2]

/-- C9 witness: casting the timestamp literal `now` to date gives
`DATE('now')` with dataType date, timeframe day; casting the number field `x`
to string gives `cast(x as string)` with dataType string. -/
theorem cast_translation_spec_witness :
    translation (.ExprCast (.ExprTime .timestamp [Fragment.text "now"] false)
        .date false) fsX =
      .ok ⟨.date, false,
        compressExpr ([Fragment.text "DATE("] ++ [Fragment.text "now"]
          ++ [Fragment.text ")"]), some "day"⟩ [] :=
  ((cast_translation_spec (.ExprTime .timestamp [Fragment.text "now"] false)
      .date false fsX ⟨.timestamp, false, [Fragment.text "now"], none⟩ []
      (by simp [translation, TimeType.fv])).2.1) rfl rfl

/-- C10: `Pick.translation` with an else clause but zero choices reads
`choiceValues[0]` from an empty list (ast-expr.ts lines 888-891); in the
total embedding this is the guarded crash case, so the function is
value-producing only when at least one choice exists. -/
theorem pick_translation_empty_choices (ep : Expr) (fs : FieldSpace) :
    translation (.Pick [] (some ep)) fs =
      .crash "TypeError: choiceValues[0] is undefined" := by
  simp [translation, pickTransLoop]

/-- C6 counterexample: looking up the missing field `x` logs
`Reference to undefined field 'x` — without the closing quote the claim
specifies (ast-expr.ts line 305 interpolates `'${name}` with no trailing
quote), so the logged list differs from the claimed one. -/
theorem field_undefined_msg_counterexample :
    translation (.ExprField "x") fsEmpty =
      .ok ⟨.error, false, [], none⟩ ["Reference to undefined field 'x"] ∧
    ["Reference to undefined field 'x"] ≠ ["Reference to undefined field 'x'"] := by
  constructor
  · simp [translation, fsEmpty, errorFor]
  · decide

/-- C6 amended: `ExprField(n).translation(fs)` returns the entry's dataType
and aggregate flag with a single field fragment on a hit; on a miss it logs
exactly `Reference to undefined field 'n` (no closing quote) and returns an
error-typed value (ast-expr.ts lines 294-307). -/
theorem field_translation_spec (n : String) (fs : FieldSpace) :
    (∀ entry, fs n = some entry →
      translation (.ExprField n) fs =
        .ok ⟨entry.type, entry.aggregate.getD false, [Fragment.field n], none⟩ []) ∧
    (fs n = none →
      translation (.ExprField n) fs =
        .ok ⟨.error, false, [], none⟩ ["Reference to undefined field '" ++ n]) := by
  constructor
  · intro entry hit
    simp [translation, hit]
  · intro miss
    simp [translation, miss, errorFor]

/-- C6 witness: the hit branch on `x` in the concrete space, and the miss
branch on the empty space. -/
theorem field_translation_spec_witness :
    translation (.ExprField "x") fsX =
      .ok ⟨.number, false, [Fragment.field "x"], none⟩ [] ∧
    translation (.ExprField "q") fsEmpty =
      .ok ⟨.error, false, [], none⟩ ["Reference to undefined field '" ++ "q"] :=
  ⟨(field_translation_spec "x" fsX).1 ⟨.number, some false⟩ rfl,
   (field_translation_spec "q" fsEmpty).2 rfl⟩

/-- C7: when no filter condition is aggregate and the inner expression is not
aggregate, `ExprFilter(e, filter).translation` is identical to `e`'s
translation; when some condition is aggregate, it logs
`Cannot filter a field with an aggregate computation` and returns an
error-typed value regardless of `e`'s value (ast-expr.ts lines 654-682). -/
theorem filter_translation_spec (e : Expr) (flt : Filter) (fs : FieldSpace)
    (r : ExprValue) (me : List String)
    (h : translation e fs = .ok r me) :
    ((flt.getFilterList fs).any (fun c => c.2) = false → r.aggregate = false →
      translation (.ExprFilter e flt) fs = .ok r me) ∧
    ((flt.getFilterList fs).any (fun c => c.2) = true →
      translation (.ExprFilter e flt) fs =
        .ok ⟨.error, false, [], none⟩
          (me ++ ["Cannot filter a field with an aggregate computation"])) := by
  constructor
  · intro hnone hagg
    simp [translation, h, hnone, hagg]
  · intro hsome
    simp [translation, h, hsome, errorFor]

/-- C7 witness: filtering the plain field `x` with one non-aggregate
condition is the identity, and with one aggregate condition it is the
diagnosed error. -/
theorem filter_translation_spec_witness :
    translation (.ExprFilter (.ExprField "x") ⟨fun _ => [([Fragment.text "c"], false)]⟩) fsX =
      .ok ⟨.number, false, [Fragment.field "x"], none⟩ [] ∧
    translation (.ExprFilter (.ExprField "x") ⟨fun _ => [([Fragment.text "c"], true)]⟩) fsX =
      .ok ⟨.error, false, [], none⟩
        ([] ++ ["Cannot filter a field with an aggregate computation"]) :=
  ⟨(filter_translation_spec (.ExprField "x") ⟨fun _ => [([Fragment.text "c"], false)]⟩ fsX
      ⟨.number, false, [Fragment.field "x"], none⟩ []
      (by simp [translation, fsX]) ).1 (by decide) rfl,
   (filter_translation_spec (.ExprField "x") ⟨fun _ => [([Fragment.text "c"], true)]⟩ fsX
      ⟨.number, false, [Fragment.field "x"], none⟩ []
      (by simp [translation, fsX]) ).2 (by decide)⟩

/-- C5 counterexample: `sum(sold)` where `sold` is an aggregate-typed number
field type-checks successfully — no `Can't use type` diagnostic is logged
(the message list is empty) and the result is a non-error aggregate number,
because line 462 forces the checked value's aggregate flag to `false`. -/
theorem sum_of_aggregate_counterexample :
    fsX "sold" = some ⟨.number, some true⟩ ∧
    translation (.ExprField "sold") fsX =
      .ok ⟨.number, true, [Fragment.field "sold"], none⟩ [] ∧
    translation (.ExprSum (some (.ExprField "sold")) none) fsX =
      .ok ⟨.number, true, [Fragment.aggregate "sum" [Fragment.field "sold"] none],
        none⟩ [] ∧
    FieldValueType.number ≠ FieldValueType.error := by
  refine ⟨rfl, ?_, ?_, by decide⟩
  · simp [translation, fsX]
  · simp [translation, fsX, aggComplete, aggSource, aggFinish, typeCheck,
      FT.isIn, legalAggregate, FT.numberT]

/-- C5 amended: the aggregate-function type check ignores the child's
aggregate flag (it is forced to `false` before checking, ast-expr.ts line
462), so any child whose dataType is legal — aggregate or not — passes, and
the result has aggregate `true` and dataType `returns(innerValue)` (number
for sum, the child's dataType for min); the `Can't use type` diagnostic
occurs only when the dataType itself is illegal. -/
theorem aggregate_typecheck_spec (x : Expr) (fs : FieldSpace) (v : ExprValue)
    (m : List String) (h : translation x fs = .ok v m) :
    (v.dataType = .number →
      translation (.ExprSum (some x) none) fs =
        .ok ⟨.number, true, [Fragment.aggregate "sum" v.value none], none⟩ m) ∧
    (v.dataType = .number ∨ v.dataType = .string ∨ v.dataType = .date ∨
        v.dataType = .timestamp →
      translation (.ExprMin x) fs =
        .ok ⟨v.dataType, true, [Fragment.aggregate "min" v.value none], none⟩ m) ∧
    (v.dataType = .boolean →
      translation (.ExprSum (some x) none) fs =
        .ok ⟨.error, false, [], none⟩
          (m ++ ["'sum' Can't use type " ++ FT.inspect v])) := by
  refine ⟨?_, ?_, ?_⟩
  · intro hd
    simp [translation, h, aggComplete, aggSource, aggFinish, typeCheck,
      FT.isIn, legalAggregate, FT.numberT, hd]
  · intro hd
    rcases hd with hd | hd | hd | hd <;>
      simp [translation, h, aggComplete, aggSource, aggFinish, typeCheck,
        FT.isIn, legalMinMax, FT.numberT, FT.stringT, FT.dateT, FT.timestampT, hd]
  · intro hd
    simp [translation, h, aggComplete, aggSource, aggFinish, typeCheck,
      FT.isIn, legalAggregate, FT.numberT, hd, errorFor, FT.inspect, fvName]

/-- C5 witness: `sum` over the aggregate number field `sold` succeeds with an
aggregate number result, and `sum` over a boolean literal is the diagnosed
type error. -/
theorem aggregate_typecheck_spec_witness :
    translation (.ExprSum (some (.ExprField "sold")) none) fsX =
      .ok ⟨.number, true, [Fragment.aggregate "sum" [Fragment.field "sold"] none],
        none⟩ [] ∧
    translation (.ExprSum (some (.Boolean true)) none) fsX =
      .ok ⟨.error, false, [], none⟩
        ([] ++ ["'sum' Can't use type " ++
          FT.inspect ⟨.boolean, false, [Fragment.text "true"], none⟩]) :=
  ⟨(aggregate_typecheck_spec (.ExprField "sold") fsX
      ⟨.number, true, [Fragment.field "sold"], none⟩ []
      (by simp [translation, fsX])).1 rfl,
   (aggregate_typecheck_spec (.Boolean true) fsX
      ⟨.boolean, false, [Fragment.text "true"], none⟩ []
      (by simp [translation])).2.2 rfl⟩

/-- C4 counterexample: `not y` where `y` is undefined: the inner translation
yields an error-typed value with one diagnostic, and `ExprNot`'s type check
then logs a second, new diagnostic (`'not' Can't use type error`) and
returns a fresh error value — error-typed values are not inert. -/
theorem error_not_inert_counterexample :
    translation (.ExprField "y") fsEmpty =
      .ok ⟨.error, false, [], none⟩ ["Reference to undefined field 'y"] ∧
    translation (.ExprNot (.ExprField "y")) fsEmpty =
      .ok ⟨.error, false, [], none⟩
        ["Reference to undefined field 'y", "'not' Can't use type error"] := by
  constructor
  · simp [translation, fsEmpty, errorFor]
  · simp [translation, fsEmpty, errorFor, typeCheck, FT.isIn, legalNot,
      FT.boolT, FT.nullT, FT.inspect, fvName]

/-- C4 amended: error-typed values are not inert: `typeCheck` treats `error`
like any other dataType, so a consumer whose legal child types exclude it
(such as `ExprNot`) logs a new `Can't use type error` diagnostic and returns
a fresh error value (ast-expr.ts lines 82-88 and 232-242). -/
theorem error_not_inert_spec (x : Expr) (fs : FieldSpace) (v : ExprValue)
    (m : List String) (h : translation x fs = .ok v m)
    (he : v.dataType = .error) :
    translation (.ExprNot x) fs =
      .ok ⟨.error, false, [], none⟩
        (m ++ ["'not' Can't use type " ++ FT.inspect v]) ∧
    FT.inspect v = "error" := by
  constructor
  · simp [translation, h, typeCheck, FT.isIn, legalNot, FT.boolT, FT.nullT,
      he, errorFor]
  · simp [FT.inspect, he, fvName]

/-- C4 witness: instantiating the amended theorem at `not y` over the empty
field space. -/
theorem error_not_inert_spec_witness :
    translation (.ExprNot (.ExprField "y")) fsEmpty =
      .ok ⟨.error, false, [], none⟩
        (["Reference to undefined field 'y"] ++
          ["'not' Can't use type " ++ FT.inspect ⟨.error, false, [], none⟩]) :=
  (error_not_inert_spec (.ExprField "y") fsEmpty ⟨.error, false, [], none⟩
    ["Reference to undefined field 'y"]
    (by simp [translation, fsEmpty, errorFor]) rfl).1

/-- The find of `Pick.requestTranslation` succeeds exactly when some choice
has no pick value or has a when whose own `requestTranslation` denies. -/
theorem pickFind_char (choices : List (Option Expr × Expr)) (fs : FieldSpace)
    (b : Bool) (m : List String) (h : pickFind choices fs = .ok b m) :
    b = true ↔ ∃ c ∈ choices, c.1 = none ∨
      ∃ m', requestTranslation c.2 fs = .ok none m' := by
  induction choices generalizing b m with
  | nil =>
    simp only [pickFind] at h
    rcases h with ⟨rfl, rfl⟩
    simp
  | cons c rest ih =>
    obtain ⟨p, w⟩ := c
    cases p with
    | none =>
      simp only [pickFind] at h
      rcases h with ⟨rfl, rfl⟩
      simp
    | some pe =>
      simp only [pickFind] at h
      cases hr : requestTranslation w fs with
      | crash c =>
        rw [hr] at h
        exact absurd h (by simp)
      | ok r0 m0 =>
        rw [hr] at h
        cases r0 with
        | none =>
          simp at h
          rcases h with ⟨rfl, rfl⟩
          exact ⟨fun _ => ⟨(some pe, w), by simp, Or.inr ⟨m0, hr⟩⟩, fun _ => rfl⟩
        | some v0 =>
          replace h : XR.mapMsgs m0 (pickFind rest fs) = .ok b m := h
          rcases (XR.mapMsgs_eq_ok _ _ _ _).mp h with ⟨mr, hrest, rfl⟩
          rw [ih _ _ hrest]
          constructor
          · rintro ⟨c, hc, hcond⟩
            exact ⟨c, List.mem_cons_of_mem _ hc, hcond⟩
          · rintro ⟨c, hc, hcond⟩
            rcases List.mem_cons.mp hc with rfl | hc2
            · rcases hcond with h1 | ⟨m', hm'⟩
              · exact absurd h1 (by simp)
              · rw [hr] at hm'
                exact absurd hm' (by simp)
            · exact ⟨c, hc2, hcond⟩

/-- C8 counterexample: a pick with an else clause whose single choice has no
pick value: `requestTranslation` denies (returns `none`), although the else
clause is present and the only when clause is not partial — the two
conditions the claim names as exhaustive both fail. -/
theorem pick_requestTranslation_counterexample :
    requestTranslation (.Pick [(none, .Boolean true)] (some (.ExprNumber "0")))
        fsEmpty = .ok none [] ∧
    requestTranslation (.Boolean true) fsEmpty =
      .ok (some ⟨.boolean, false, [Fragment.text "true"], none⟩) [] ∧
    (some (Expr.ExprNumber "0") ≠ none) := by
  refine ⟨?_, ?_, by simp⟩
  · simp [requestTranslation, pickFind]
  · simp [requestTranslation, translation]

/-- C8 amended: `Pick.requestTranslation` returns denial exactly when the
else clause is missing, some choice has no pick value, or some when clause is
partial (its own `requestTranslation` denies); in every other case it returns
the pick's translation (ast-expr.ts lines 811-826). -/
theorem pick_requestTranslation_spec (choices : List (Option Expr × Expr))
    (elsePick : Option Expr) (fs : FieldSpace) (r : Option ExprValue)
    (m : List String)
    (h : requestTranslation (.Pick choices elsePick) fs = .ok r m) :
    (r = none ↔ elsePick = none ∨ ∃ c ∈ choices, c.1 = none ∨
      ∃ m', requestTranslation c.2 fs = .ok none m') ∧
    (∀ v, r = some v → ∃ mf mt, m = mf ++ mt ∧
      translation (.Pick choices elsePick) fs = .ok v mt) := by
  cases elsePick with
  | none =>
    simp only [requestTranslation] at h
    rcases h with ⟨rfl, rfl⟩
    exact ⟨by simp, by simp⟩
  | some ep =>
    simp only [requestTranslation] at h
    cases hf : pickFind choices fs with
    | crash c =>
      rw [hf] at h
      exact absurd h (by simp)
    | ok b mf =>
      rw [hf] at h
      cases b with
      | true =>
        simp at h
        rcases h with ⟨rfl, rfl⟩
        constructor
        · simp only [true_iff]
          exact Or.inr (((pickFind_char choices fs true mf hf).mp rfl).imp
            (fun c => id))
        · simp
      | false =>
        replace h : XR.mapMsgs mf
            (translation (Expr.Pick choices (some ep)) fs >>= fun v =>
              XR.ok (some v) []) = .ok r m := h
        rcases (XR.mapMsgs_eq_ok _ _ _ _).mp h with ⟨m2, hbind, rfl⟩
        rcases (XR.bind_eq_ok _ _ _ _).mp hbind with ⟨v0, mt, m3, ht, hp, rfl⟩
        replace hp : XR.ok (some v0) ([] : List String) = .ok r m3 := hp
        rcases (XR.ok.injEq _ _ _ _).mp hp with ⟨rfl, rfl⟩
        constructor
        · constructor
          · intro h0
            exact absurd h0 (by simp)
          · intro hrhs
            exfalso
            rcases hrhs with h0 | hex
            · exact absurd h0 (by simp)
            · exact absurd ((pickFind_char choices fs false mf hf).mpr hex)
                (by simp)
        · intro v hv
          cases hv
          exact ⟨mf, mt, by simp, ht⟩

/-- C8 witness: instantiating the amended characterization at the pick with
one pickless choice: denial is explained by that choice. -/
theorem pick_requestTranslation_spec_witness :
    ((none : Option ExprValue) = none ↔ some (Expr.ExprNumber "0") = none ∨
      ∃ c ∈ [((none : Option Expr), Expr.Boolean true)], c.1 = none ∨
        ∃ m', requestTranslation c.2 fsEmpty = .ok none m') ∧
    (∀ v, (none : Option ExprValue) = some v → ∃ mf mt, ([] : List String) = mf ++ mt ∧
      translation (.Pick [((none : Option Expr), Expr.Boolean true)]
        (some (Expr.ExprNumber "0"))) fsEmpty = .ok v mt) :=
  pick_requestTranslation_spec [(none, .Boolean true)] (some (.ExprNumber "0"))
    fsEmpty none [] (by simp [requestTranslation, pickFind])

/-- C3 counterexample: a `Range` asked directly for its translation returns
an error-typed value with an empty diagnostics list (ast-expr.ts lines
782-784 return `errorFor` without calling `log`). -/
theorem range_translation_silent :
    translation (.Range (.ExprNumber "1") (.ExprNumber "2")) fsEmpty =
      .ok ⟨.error, false, [], none⟩ [] := by
  simp [translation, errorFor]

mutual

/-- An expression containing no `Range` node. -/
def rangeFree : Expr → Bool
  | .ExprNot e => rangeFree e
  | .ExprLogicalOp l _ r => rangeFree l && rangeFree r
  | .ExprParens e => rangeFree e
  | .ExprMinus e => rangeFree e
  | .ExprAddSub l _ r => rangeFree l && rangeFree r
  | .ExprMulDiv l _ r => rangeFree l && rangeFree r
  | .ExprAlternationTree l _ r => rangeFree l && rangeFree r
  | .ExprMin e => rangeFree e
  | .ExprMax e => rangeFree e
  | .ExprCountDistinct e => rangeFree e
  | .ExprAvg e _ => rangeFreeOpt e
  | .ExprSum e _ => rangeFreeOpt e
  | .WhenClause w t => rangeFree w && rangeFree t
  | .ExprCase whens els => rangeFreeWhens whens && rangeFreeOpt els
  | .ExprFilter e _ => rangeFree e
  | .ExprCast e _ _ => rangeFree e
  | .Range _ _ => false
  | .Pick choices els => rangeFreeChoices choices && rangeFreeOpt els
  | _ => true
  termination_by e => sizeOf e

/-- Range-freedom of an optional expression. -/
def rangeFreeOpt : Option Expr → Bool
  | none => true
  | some e => rangeFree e
  termination_by o => sizeOf o

/-- Range-freedom of a list of case clauses. -/
def rangeFreeWhens : List (Expr × Expr) → Bool
  | [] => true
  | (w, t) :: rest => rangeFree w && rangeFree t && rangeFreeWhens rest
  termination_by l => sizeOf l

/-- Range-freedom of a list of pick choices. -/
def rangeFreeChoices : List (Option Expr × Expr) → Bool
  | [] => true
  | (p, w) :: rest => rangeFreeOpt p && rangeFree w && rangeFreeChoices rest
  termination_by l => sizeOf l

end

/-- A field space none of whose entries is error-typed. -/
def okFS (fs : FieldSpace) : Prop :=
  ∀ nm entry, fs nm = some entry → entry.type ≠ FieldValueType.error

theorem append_ne_nil_right (a b : List String) (h : b ≠ []) : a ++ b ≠ [] := by
  intro hc
  rw [List.append_eq_nil] at hc
  exact h hc.2

theorem append_ne_nil_left (a b : List String) (h : a ≠ []) : a ++ b ≠ [] := by
  intro hc
  rw [List.append_eq_nil] at hc
  exact h hc.1

theorem isIn_dataType (v : ExprValue) (legal : List FragType)
    (h : FT.isIn v legal = true) : ∃ t ∈ legal, t.dataType = v.dataType := by
  unfold FT.isIn at h
  rcases List.any_eq_true.mp h with ⟨t, ht, hcond⟩
  rcases Bool.and_eq_true_iff.mp hcond with ⟨h1, _⟩
  exact ⟨t, ht, beq_iff_eq.mp h1⟩

theorem typeCheck_false_msgs (et : String) (v : ExprValue) (legal : List FragType)
    (ms : List String) (h : typeCheck et v legal = (false, ms)) : ms ≠ [] := by
  unfold typeCheck at h
  split_ifs at h
  · exact absurd h.symm (by simp)
  · rcases (Prod.mk.injEq ..).mp h with ⟨_, hm⟩
    rw [← hm]
    simp

theorem applyBinaryV_err (lv : ExprValue) (op : String) (rv : ExprValue)
    (v : ExprValue) (ms : List String) (h : applyBinaryV lv op rv = (v, ms))
    (he : v.dataType = .error) : ms ≠ [] := by
  unfold applyBinaryV at h
  split_ifs at h <;>
    · rcases (Prod.mk.injEq ..).mp h with ⟨hv, hm⟩
      subst hm
      first
        | (rw [← hv] at he; exact absurd he (by simp))
        | simp

theorem aggComplete_err (func : String) (legal : List FragType) (rc : Bool)
    (fs : FieldSpace) (ev? : Option ExprValue) (src : Option String)
    (hleg : ∀ t ∈ legal, t.dataType ≠ FieldValueType.error)
    (v : ExprValue) (m : List String)
    (h : aggComplete func legal rc fs ev? src = .ok v m)
    (he : v.dataType = .error) : m ≠ [] := by
  rcases hsrc : aggSource fs ev? src with ⟨ev2, src2⟩
  unfold aggComplete at h
  rw [hsrc] at h
  cases ev2 with
  | none =>
    replace h : XR.ok (errorFor "agggregate without expression")
        ["Missing expression for aggregate function"] = XR.ok v m := h
    rcases (XR.ok.injEq _ _ _ _).mp h with ⟨_, hm⟩
    rw [← hm]
    simp
  | some ev =>
    replace h : aggFinish func legal rc ev src2 = XR.ok v m := h
    rcases htc : typeCheck func { ev with aggregate := false } legal with ⟨tOk, ms⟩
    unfold aggFinish at h
    rw [htc] at h
    cases tOk with
    | true =>
      exfalso
      replace h : XR.ok
          (⟨(if rc = true then ev.dataType else FieldValueType.number), true,
            [Fragment.aggregate func ev.value src2], none⟩ : ExprValue)
          ([] : List String) = XR.ok v m := h
      rcases (XR.ok.injEq _ _ _ _).mp h with ⟨hv, _⟩
      rw [← hv] at he
      simp only at he
      unfold typeCheck at htc
      split_ifs at htc with hin
      · rcases isIn_dataType _ _ hin with ⟨t, ht, htd⟩
        simp only at htd
        cases rc with
        | true =>
          simp only [if_true] at he
          exact hleg t ht (htd.trans he)
        | false => simp at he
      · exact absurd htc (by simp)
    | false =>
      replace h : XR.ok (errorFor "aggregate type check") ms = XR.ok v m := h
      rcases (XR.ok.injEq _ _ _ _).mp h with ⟨_, hm⟩
      rw [← hm]
      exact typeCheck_false_msgs _ _ _ _ htc

theorem pickCheck_inl (rt : ExprValue) (cvs : List (ExprValue × ExprValue)) :
    ∀ (agg : Bool) (e : ExprValue) (ms : List String),
      pickCheck rt cvs agg = (.inl e, ms) → ms ≠ [] := by
  induction cvs with
  | nil =>
    intro agg e ms h
    unfold pickCheck at h
    rcases (Prod.mk.injEq ..).mp h with ⟨hs, _⟩
    exact absurd hs (by simp)
  | cons c rest ih =>
    obtain ⟨pv, wv⟩ := c
    intro agg e ms h
    unfold pickCheck at h
    split_ifs at h
    · rcases (Prod.mk.injEq ..).mp h with ⟨_, hm⟩
      rw [← hm]
      simp
    · rcases (Prod.mk.injEq ..).mp h with ⟨_, hm⟩
      rw [← hm]
      simp
    · rcases hrec : pickCheck rt rest (agg || pv.aggregate || wv.aggregate)
        with ⟨s, ms2⟩
      rw [hrec] at h
      cases s with
      | inl e2 =>
        rcases (Prod.mk.injEq ..).mp h with ⟨_, hm⟩
        rw [← hm]
        exact ih _ _ _ hrec
      | inr pr =>
        obtain ⟨aggF, frags⟩ := pr
        rcases (Prod.mk.injEq ..).mp h with ⟨hs, _⟩
        exact absurd hs (by simp)

theorem caseFinish_err (rt : Option ExprValue) (agg : Bool) (frags : List Fragment)
    (v : ExprValue) (m : List String) (h : caseFinish rt agg frags = .ok v m)
    (he : v.dataType = .error) :
    m ≠ [] ∨ ∃ w, rt = some w ∧ w.dataType = FieldValueType.error := by
  cases rt with
  | none =>
    left
    replace h : XR.ok (errorFor "typeless case")
        ["case statement type not computable"] = XR.ok v m := h
    rcases (XR.ok.injEq _ _ _ _).mp h with ⟨_, hm⟩
    rw [← hm]
    simp
  | some w =>
    right
    replace h : XR.ok
        (⟨w.dataType, agg,
          [Fragment.text "CASE "] ++ frags ++ [Fragment.text " END"],
          none⟩ : ExprValue) ([] : List String) = XR.ok v m := h
    rcases (XR.ok.injEq _ _ _ _).mp h with ⟨hv, _⟩
    rw [← hv] at he
    simp only at he
    exact ⟨w, rfl, he⟩

theorem pickApplyDone_err (rt : Option ExprValue) (ag : Bool)
    (frags : List Fragment) (ev : ExprValue) (v : ExprValue) (m : List String)
    (h : pickApplyDone rt ag frags ev = .ok v m) (he : v.dataType = .error) :
    m ≠ [] ∨ (∃ w, rt = some w ∧ w.dataType = FieldValueType.error) ∨
      ev.dataType = FieldValueType.error := by
  cases rt with
  | none =>
    simp only [pickApplyDone] at h
    split_ifs at h
    · rcases (XR.ok.injEq _ _ _ _).mp h with ⟨hv, _⟩
      rw [← hv] at he
      simp only at he
      exact Or.inr (Or.inr he)
    · rcases (XR.ok.injEq _ _ _ _).mp h with ⟨_, hm⟩
      rw [← hm]
      simp
  | some rtv =>
    simp only [pickApplyDone] at h
    split_ifs at h
    · rcases (XR.ok.injEq _ _ _ _).mp h with ⟨hv, _⟩
      rw [← hv] at he
      simp only at he
      exact Or.inr (Or.inl ⟨rtv, rfl, he⟩)
    · rcases (XR.ok.injEq _ _ _ _).mp h with ⟨_, hm⟩
      rw [← hm]
      simp



theorem typeCheck_fst_false (et : String) (v : ExprValue) (legal : List FragType)
    (h : (typeCheck et v legal).1 ≠ true) : (typeCheck et v legal).2 ≠ [] := by
  unfold typeCheck at h ⊢
  split_ifs at h ⊢ with hin
  · exact absurd rfl h
  · simp

set_option maxHeartbeats 1000000 in
theorem master : ∀ n : Nat,
    (∀ e fs, 3 * sizeOf e ≤ n → rangeFree e = true → okFS fs →
      ∀ v m, translation e fs = .ok v m → v.dataType = FieldValueType.error → m ≠ []) ∧
    (∀ s o fs op, 3 * (sizeOf s + sizeOf o) + 2 ≤ n → rangeFree s = true →
      rangeFree o = true → okFS fs →
      ∀ v m, applyE s fs op o = .ok v m → v.dataType = FieldValueType.error → m ≠ []) ∧
    (∀ whens fs rt agg, 3 * sizeOf whens ≤ n → rangeFreeWhens whens = true → okFS fs →
      ∀ s m, caseLoop whens fs rt agg = .ok s m →
        (∀ e, s = .inl e → m ≠ []) ∧
        (∀ rt2 agg2 frags, s = .inr (rt2, agg2, frags) →
          ∀ w, rt2 = some w → w.dataType = FieldValueType.error →
            m ≠ [] ∨ (∃ w0, rt = some w0 ∧ w0.dataType = FieldValueType.error))) ∧
    (∀ choices fs, 3 * sizeOf choices ≤ n → rangeFreeChoices choices = true → okFS fs →
      ∀ s m, pickTransLoop choices fs = .ok s m →
        (∀ e, s = .inl e → m ≠ []) ∧
        (∀ cvs, s = .inr cvs → ∀ pv wv, (pv, wv) ∈ cvs →
          pv.dataType = FieldValueType.error → m ≠ [])) ∧
    (∀ choices fs o rt agg, 3 * (sizeOf choices + sizeOf o) + 2 ≤ n →
      rangeFreeChoices choices = true → rangeFree o = true → okFS fs →
      ∀ s m, pickApplyLoop choices fs o rt agg = .ok s m →
        (∀ e, s = .inl e → m ≠ []) ∧
        (∀ rt2 agg2 frags, s = .inr (rt2, agg2, frags) →
          ∀ w, rt2 = some w → w.dataType = FieldValueType.error →
            m ≠ [] ∨ (∃ w0, rt = some w0 ∧ w0.dataType = FieldValueType.error))) := by
  intro n
  induction n using Nat.strong_induction_on with
  | _ n IH =>
  refine ⟨?_, ?_, ?_, ?_, ?_⟩
  · -- translation
    intro e fs hsz hrf hfs
    cases e with
    | ExprString s0 =>
      intro v m h he
      simp only [translation] at h
      rcases (XR.ok.injEq _ _ _ _).mp h with ⟨hv, _⟩
      rw [← hv] at he
      simp at he
    | ExprNumber n0 =>
      intro v m h he
      simp only [translation] at h
      rcases (XR.ok.injEq _ _ _ _).mp h with ⟨hv, _⟩
      rw [← hv] at he
      simp at he
    | ExprRegEx r0 =>
      intro v m h he
      simp only [translation] at h
      rcases (XR.ok.injEq _ _ _ _).mp h with ⟨hv, _⟩
      rw [← hv] at he
      simp at he
    | ExprTime tt v0 agg0 =>
      intro v m h he
      simp only [translation] at h
      rcases (XR.ok.injEq _ _ _ _).mp h with ⟨hv, _⟩
      rw [← hv] at he
      cases tt <;> simp [TimeType.fv] at he
    | Boolean b =>
      intro v m h he
      simp only [translation] at h
      rcases (XR.ok.injEq _ _ _ _).mp h with ⟨hv, _⟩
      rw [← hv] at he
      simp at he
    | ExprNULL =>
      intro v m h he
      simp only [translation] at h
      rcases (XR.ok.injEq _ _ _ _).mp h with ⟨hv, _⟩
      rw [← hv] at he
      simp at he
    | ExprCount src =>
      intro v m h he
      simp only [translation] at h
      rcases (XR.ok.injEq _ _ _ _).mp h with ⟨hv, _⟩
      rw [← hv] at he
      simp at he
    | ExprField name =>
      intro v m h he
      simp only [translation] at h
      cases hfld : fs name with
      | some entry =>
        rw [hfld] at h
        rcases (XR.ok.injEq _ _ _ _).mp h with ⟨hv, _⟩
        rw [← hv] at he
        simp only at he
        exact absurd he (hfs name entry hfld)
      | none =>
        rw [hfld] at h
        rcases (XR.ok.injEq _ _ _ _).mp h with ⟨_, hm⟩
        rw [← hm]
        simp
    | ExprAlternationTree l aop r =>
      intro v m h he
      simp only [translation] at h
      rcases (XR.ok.injEq _ _ _ _).mp h with ⟨_, hm⟩
      rw [← hm]
      simp
    | WhenClause w t =>
      intro v m h he
      simp only [translation] at h
      exact XR.noConfusion h
    | Range f l =>
      simp only [rangeFree] at hrf
      exact absurd hrf (by simp)
    | ExprNot ex =>
      intro v m h he
      simp only [translation] at h
      rcases (XR.bind_eq_ok _ _ _ _).mp h with ⟨nt, m1, m2, hx, hc, hm⟩
      subst hm
      split at hc
      next htc =>
        replace hc : XR.ok
            (⟨FieldValueType.boolean, nt.aggregate, nullsafeNot nt.value,
              nt.timeframe⟩ : ExprValue) ([] : List String) = XR.ok v m2 := hc
        rcases (XR.ok.injEq _ _ _ _).mp hc with ⟨hv, _⟩
        rw [← hv] at he
        simp at he
      next htc =>
        rcases (XR.ok.injEq _ _ _ _).mp hc with ⟨_, hm2⟩
        exact append_ne_nil_right _ _ (hm2 ▸ typeCheck_fst_false _ _ _ htc)
    | ExprParens ex =>
      intro v m h he
      simp only [translation] at h
      rcases (XR.bind_eq_ok _ _ _ _).mp h with ⟨sub, m1, m2, hx, hc, hm⟩
      subst hm
      simp only [XR.pure_def] at hc
      rcases (XR.ok.injEq _ _ _ _).mp hc with ⟨hv, _⟩
      rw [← hv] at he
      simp only at he
      simp only [rangeFree] at hrf
      have hlt : 3 * sizeOf ex < n := by simp at hsz; omega
      exact append_ne_nil_left _ _
        ((IH _ hlt).1 ex fs le_rfl hrf hfs sub m1 hx he)
    | ExprMinus ex =>
      intro v m h he
      simp only [translation] at h
      rcases (XR.bind_eq_ok _ _ _ _).mp h with ⟨ev, m1, m2, hx, hc, hm⟩
      subst hm
      split at hc
      next htc =>
        simp only [rangeFree] at hrf
        have hlt : 3 * sizeOf ex < n := by simp at hsz; omega
        split_ifs at hc <;>
          · simp only [XR.pure_def] at hc
            rcases (XR.ok.injEq _ _ _ _).mp hc with ⟨hv, _⟩
            rw [← hv] at he
            simp only at he
            exact append_ne_nil_left _ _
              ((IH _ hlt).1 ex fs le_rfl hrf hfs ev m1 hx he)
      next htc =>
        rcases (XR.ok.injEq _ _ _ _).mp hc with ⟨_, hm2⟩
        exact append_ne_nil_right _ _ (hm2 ▸ typeCheck_fst_false _ _ _ htc)
    | ExprLogicalOp l lop r =>
      intro v m h he
      simp only [translation] at h
      rcases (XR.bind_eq_ok _ _ _ _).mp h with ⟨lv, m1, m2, hx, hc, hm⟩
      subst hm
      rcases (XR.bind_eq_ok _ _ _ _).mp hc with ⟨rv, m3, m4, hx2, hc2, hm2⟩
      subst hm2
      split at hc2
      next htc1 =>
        split at hc2
        next htc2 =>
          rcases (XR.ok.injEq _ _ _ _).mp hc2 with ⟨hv, _⟩
          rw [← hv] at he
          simp at he
        next htc2 =>
          rcases (XR.ok.injEq _ _ _ _).mp hc2 with ⟨_, hm4⟩
          exact append_ne_nil_right _ _ (append_ne_nil_right _ _
            (hm4 ▸ typeCheck_fst_false _ _ _ htc2))
      next htc1 =>
        rcases (XR.ok.injEq _ _ _ _).mp hc2 with ⟨_, hm4⟩
        exact append_ne_nil_right _ _ (append_ne_nil_right _ _
          (hm4 ▸ typeCheck_fst_false _ _ _ htc1))
    | ExprAddSub l aop r =>
      intro v m h he
      simp only [translation] at h
      simp only [rangeFree, Bool.and_eq_true] at hrf
      obtain ⟨hrl, hrr⟩ := hrf
      have hlt : 3 * (sizeOf r + sizeOf l) + 2 < n := by simp at hsz; omega
      exact (IH _ hlt).2.1 r l fs aop.str le_rfl hrr hrl hfs v m h he
    | ExprMulDiv l aop r =>
      intro v m h he
      simp only [translation] at h
      simp only [rangeFree, Bool.and_eq_true] at hrf
      obtain ⟨hrl, hrr⟩ := hrf
      have hlt : 3 * (sizeOf r + sizeOf l) + 2 < n := by simp at hsz; omega
      exact (IH _ hlt).2.1 r l fs aop.str le_rfl hrr hrl hfs v m h he
    | ExprMin ex =>
      intro v m h he
      simp only [translation] at h
      rcases (XR.bind_eq_ok _ _ _ _).mp h with ⟨ev, m1, m2, hx, hc, hm⟩
      subst hm
      exact append_ne_nil_right _ _
        (aggComplete_err _ _ _ _ _ _ (by decide) v m2 hc he)
    | ExprMax ex =>
      intro v m h he
      simp only [translation] at h
      rcases (XR.bind_eq_ok _ _ _ _).mp h with ⟨ev, m1, m2, hx, hc, hm⟩
      subst hm
      exact append_ne_nil_right _ _
        (aggComplete_err _ _ _ _ _ _ (by decide) v m2 hc he)
    | ExprCountDistinct ex =>
      intro v m h he
      simp only [translation] at h
      rcases (XR.bind_eq_ok _ _ _ _).mp h with ⟨ev, m1, m2, hx, hc, hm⟩
      subst hm
      exact append_ne_nil_right _ _
        (aggComplete_err _ _ _ _ _ _ (by decide) v m2 hc he)
    | ExprAvg exOpt src =>
      intro v m h he
      cases exOpt with
      | some ex =>
        simp only [translation] at h
        rcases (XR.bind_eq_ok _ _ _ _).mp h with ⟨ev, m1, m2, hx, hc, hm⟩
        subst hm
        exact append_ne_nil_right _ _
          (aggComplete_err _ _ _ _ _ _ (by decide) v m2 hc he)
      | none =>
        simp only [translation] at h
        exact aggComplete_err _ _ _ _ _ _ (by decide) v m h he
    | ExprSum exOpt src =>
      intro v m h he
      cases exOpt with
      | some ex =>
        simp only [translation] at h
        rcases (XR.bind_eq_ok _ _ _ _).mp h with ⟨ev, m1, m2, hx, hc, hm⟩
        subst hm
        exact append_ne_nil_right _ _
          (aggComplete_err _ _ _ _ _ _ (by decide) v m2 hc he)
      | none =>
        simp only [translation] at h
        exact aggComplete_err _ _ _ _ _ _ (by decide) v m h he
    | ExprFilter ex flt =>
      intro v m h he
      simp only [translation] at h
      rcases (XR.bind_eq_ok _ _ _ _).mp h with ⟨r0, m1, m2, hx, hc, hm⟩
      subst hm
      simp only [rangeFree] at hrf
      have hlt : 3 * sizeOf ex < n := by simp at hsz; omega
      split at hc
      next hany =>
        rcases (XR.ok.injEq _ _ _ _).mp hc with ⟨_, hm2⟩
        rw [← hm2]
        simp
      next hany =>
        split at hc
        next haggr =>
          simp only [XR.pure_def] at hc
          rcases (XR.ok.injEq _ _ _ _).mp hc with ⟨hv, _⟩
          rw [← hv] at he
          exact append_ne_nil_left _ _
            ((IH _ hlt).1 ex fs le_rfl hrf hfs r0 m1 hx he)
        next haggr =>
          split at hc
          next htc =>
            simp only [XR.pure_def] at hc
            rcases (XR.ok.injEq _ _ _ _).mp hc with ⟨hv, _⟩
            rw [← hv] at he
            simp only at he
            exact append_ne_nil_left _ _
              ((IH _ hlt).1 ex fs le_rfl hrf hfs r0 m1 hx he)
          next htc =>
            rcases (XR.ok.injEq _ _ _ _).mp hc with ⟨_, hm2⟩
            rw [← hm2]
            exact append_ne_nil_right _ _ (append_ne_nil_right _ _ (by simp))
    | ExprCast ex t safe =>
      intro v m h he
      simp only [translation] at h
      rcases (XR.bind_eq_ok _ _ _ _).mp h with ⟨ev, m1, m2, hx, hc, hm⟩
      subst hm
      split at hc
      next hcond =>
        simp only [XR.pure_def] at hc
        rcases (XR.ok.injEq _ _ _ _).mp hc with ⟨hv, _⟩
        rw [← hv] at he
        simp at he
      next hcond =>
        simp only [XR.pure_def] at hc
        rcases (XR.ok.injEq _ _ _ _).mp hc with ⟨hv, _⟩
        rw [← hv] at he
        simp only at he
        cases t <;> simp [CastType.fv] at he
    | ExprCase whens els =>
      intro v m h he
      simp only [translation] at h
      rcases (XR.bind_eq_ok _ _ _ _).mp h with ⟨step, m1, m2, hx, hc, hm⟩
      subst hm
      simp only [rangeFree, Bool.and_eq_true] at hrf
      obtain ⟨hrw, hre⟩ := hrf
      have hltw : 3 * sizeOf whens < n := by simp at hsz; omega
      have hC := (IH _ hltw).2.2.1 whens fs none false le_rfl hrw hfs step m1 hx
      cases step with
      | inl errVal =>
        simp only [XR.pure_def] at hc
        rcases (XR.ok.injEq _ _ _ _).mp hc with ⟨_, _⟩
        exact append_ne_nil_left _ _ (hC.1 errVal rfl)
      | inr trip =>
        obtain ⟨rt, agg, frags⟩ := trip
        cases els with
        | none =>
          replace hc : caseFinish rt agg frags = XR.ok v m2 := hc
          rcases caseFinish_err rt agg frags v m2 hc he with hm2 | ⟨w, hw, hwe⟩
          · exact append_ne_nil_right _ _ hm2
          · rcases hC.2 rt agg frags rfl w hw hwe with hm1 | ⟨w0, hw0, _⟩
            · exact append_ne_nil_left _ _ hm1
            · exact absurd hw0 (by simp)
        | some els' =>
          replace hc : (translation els' fs >>= fun elseExpr =>
            if elseExpr.dataType ≠ FieldValueType.null then
              match rt with
              | some rtv =>
                if FT.typeEq rtv.dataType elseExpr.dataType false = true then
                  caseFinish (some elseExpr) (agg || elseExpr.aggregate)
                    (frags ++ [Fragment.text " ELSE "] ++ elseExpr.value)
                else
                  XR.ok (errorFor "else typecheck")
                    ["Mismatched ELSE clause type, " ++ FT.inspect2 rtv elseExpr]
              | none =>
                caseFinish (some elseExpr) (agg || elseExpr.aggregate)
                  (frags ++ [Fragment.text " ELSE "] ++ elseExpr.value)
            else
              caseFinish rt (agg || elseExpr.aggregate)
                (frags ++ [Fragment.text " ELSE "] ++ elseExpr.value)) = XR.ok v m2 := hc
          rcases (XR.bind_eq_ok _ _ _ _).mp hc with ⟨ev, m3, m4, hxe, hce, hm2⟩
          subst hm2
          simp only [rangeFreeOpt] at hre
          have hlte : 3 * sizeOf els' < n := by simp at hsz; omega
          have hEIH := (IH _ hlte).1 els' fs le_rfl hre hfs
          split at hce
          next hnn =>
            split at hce
            next rtv hrt =>
              split at hce
              next hteq =>
                rcases caseFinish_err _ _ _ v m4 hce he with hm4 | ⟨w, hw, hwe⟩
                · exact append_ne_nil_right _ _ (append_ne_nil_right _ _ hm4)
                · rcases Option.some_inj.mp hw with rfl
                  exact append_ne_nil_right _ _
                    (append_ne_nil_left _ _ (hEIH ev m3 hxe hwe))
              next hteq =>
                rcases (XR.ok.injEq _ _ _ _).mp hce with ⟨_, hm4⟩
                rw [← hm4]
                exact append_ne_nil_right _ _ (append_ne_nil_right _ _ (by simp))
            next hrt =>
              rcases caseFinish_err _ _ _ v m4 hce he with hm4 | ⟨w, hw, hwe⟩
              · exact append_ne_nil_right _ _ (append_ne_nil_right _ _ hm4)
              · rcases Option.some_inj.mp hw with rfl
                exact append_ne_nil_right _ _
                  (append_ne_nil_left _ _ (hEIH ev m3 hxe hwe))
          next hnn =>
            rcases caseFinish_err _ _ _ v m4 hce he with hm4 | ⟨w, hw, hwe⟩
            · exact append_ne_nil_right _ _ (append_ne_nil_right _ _ hm4)
            · rcases hC.2 rt agg frags rfl w hw hwe with hm1 | ⟨w0, hw0, _⟩
              · exact append_ne_nil_left _ _ hm1
              · exact absurd hw0 (by simp)
    | Pick choices els =>
      intro v m h he
      cases els with
      | none =>
        simp only [translation] at h
        rcases (XR.ok.injEq _ _ _ _).mp h with ⟨_, hm⟩
        rw [← hm]
        simp
      | some ep =>
        simp only [translation] at h
        rcases (XR.bind_eq_ok _ _ _ _).mp h with ⟨step, m1, m2, hx, hc, hm⟩
        subst hm
        simp only [rangeFree, Bool.and_eq_true] at hrf
        obtain ⟨hrc, hre⟩ := hrf
        simp only [rangeFreeOpt] at hre
        have hltc : 3 * sizeOf choices < n := by simp at hsz; omega
        have hP := (IH _ hltc).2.2.2.1 choices fs le_rfl hrc hfs step m1 hx
        cases step with
        | inl errVal =>
          simp only [XR.pure_def] at hc
          rcases (XR.ok.injEq _ _ _ _).mp hc with ⟨_, _⟩
          exact append_ne_nil_left _ _ (hP.1 errVal rfl)
        | inr cvs =>
          cases cvs with
          | nil => exact XR.noConfusion hc
          | cons c0 rest =>
            obtain ⟨pv0, wv0⟩ := c0
            replace hc : (do
                logList (pickCheck pv0 ((pv0, wv0) :: rest) pv0.aggregate).2
                match (pickCheck pv0 ((pv0, wv0) :: rest) pv0.aggregate).1 with
                | Sum.inl errVal => pure errVal
                | Sum.inr (anyAggregate, frags) => do
                  let elseValue ← translation ep fs
                  if FT.typeEq pv0.dataType elseValue.dataType true = true then
                    pure (⟨pv0.dataType, anyAggregate || elseValue.aggregate,
                      [Fragment.text "CASE"] ++ frags ++ [Fragment.text " ELSE "]
                        ++ elseValue.value ++ [Fragment.text " END"], none⟩ : ExprValue)
                  else
                    XR.ok (errorFor "pick vlaue type mismatch")
                      ["pick value types do not match " ++ FT.inspect2 pv0 elseValue])
              = XR.ok v m2 := hc
            rcases hpc : pickCheck pv0 ((pv0, wv0) :: rest) pv0.aggregate
              with ⟨chk, ms⟩
            rw [hpc] at hc
            simp only [logList, XR.ok_bind] at hc
            rcases (XR.mapMsgs_eq_ok _ _ _ _).mp hc with ⟨m3, hc2, rfl⟩
            cases chk with
            | inl errVal =>
              simp only [XR.pure_def] at hc2
              rcases (XR.ok.injEq _ _ _ _).mp hc2 with ⟨_, _⟩
              exact append_ne_nil_right _ _ (append_ne_nil_left _ _
                (pickCheck_inl pv0 ((pv0, wv0) :: rest) _ errVal ms hpc))
            | inr pr =>
              obtain ⟨anyAgg, frags⟩ := pr
              rcases (XR.bind_eq_ok _ _ _ _).mp hc2 with ⟨ev, m4, m5, hxe, hce, rfl⟩
              split at hce
              next hteq =>
                simp only [XR.pure_def] at hce
                rcases (XR.ok.injEq _ _ _ _).mp hce with ⟨hv, _⟩
                rw [← hv] at he
                simp only at he
                exact append_ne_nil_left _ _
                  (hP.2 ((pv0, wv0) :: rest) rfl pv0 wv0 (List.mem_cons_self _ _) he)
              next hteq =>
                rcases (XR.ok.injEq _ _ _ _).mp hce with ⟨_, hm5⟩
                exact append_ne_nil_right _ _ (append_ne_nil_right _ _
                  (append_ne_nil_right _ _ (by rw [← hm5]; simp)))
  · -- applyE
    intro s o fs op hsz hrfs hrfo hfs
    cases s
    case ExprParens ex =>
      intro v m h he
      simp only [applyE] at h
      simp only [rangeFree] at hrfs
      have hlt : 3 * (sizeOf ex + sizeOf o) + 2 < n := by simp at hsz; omega
      exact (IH _ hlt).2.1 ex o fs op le_rfl hrfs hrfo hfs v m h he
    case ExprAlternationTree l aop r =>
      intro v m h he
      cases aop <;>
      · simp only [applyE] at h
        rcases (XR.bind_eq_ok _ _ _ _).mp h with ⟨c1, m1, m2, hx1, hc, hm⟩
        subst hm
        rcases (XR.bind_eq_ok _ _ _ _).mp hc with ⟨c2, m3, m4, hx2, hc2, rfl⟩
        simp only [XR.pure_def] at hc2
        rcases (XR.ok.injEq _ _ _ _).mp hc2 with ⟨hv, _⟩
        rw [← hv] at he
        simp at he
    case Range f l =>
      simp only [rangeFree] at hrfs
      exact absurd hrfs (by simp)
    case Pick choices els =>
      intro v m h he
      simp only [applyE] at h
      rcases (XR.bind_eq_ok _ _ _ _).mp h with ⟨step, m1, m2, hx, hc, hm⟩
      subst hm
      simp only [rangeFree, Bool.and_eq_true] at hrfs
      obtain ⟨hrc, hre⟩ := hrfs
      have hltL : 3 * (sizeOf choices + sizeOf o) + 2 < n := by simp at hsz; omega
      have hL := (IH _ hltL).2.2.2.2 choices fs o none false le_rfl hrc hrfo hfs
        step m1 hx
      cases step with
      | inl errVal =>
        simp only [XR.pure_def] at hc
        rcases (XR.ok.injEq _ _ _ _).mp hc with ⟨_, _⟩
        exact append_ne_nil_left _ _ (hL.1 errVal rfl)
      | inr trip =>
        obtain ⟨rt2, anyAgg, frags⟩ := trip
        cases els with
        | some ep =>
          rcases (XR.bind_eq_ok _ _ _ _).mp hc with ⟨ev, m3, m4, hxe, hce, rfl⟩
          replace hce : pickApplyDone rt2 anyAgg frags ev = XR.ok v m4 := hce
          simp only [rangeFreeOpt] at hre
          have hlte : 3 * sizeOf ep < n := by simp at hsz; omega
          rcases pickApplyDone_err rt2 anyAgg frags ev v m4 hce he with
            hm4 | ⟨w, hw, hwe⟩ | hev
          · exact append_ne_nil_right _ _ (append_ne_nil_right _ _ hm4)
          · rcases hL.2 rt2 anyAgg frags rfl w hw hwe with hm1 | ⟨w0, hw0, _⟩
            · exact append_ne_nil_left _ _ hm1
            · exact absurd hw0 (by simp)
          · exact append_ne_nil_right _ _ (append_ne_nil_left _ _
              ((IH _ hlte).1 ep fs le_rfl hre hfs ev m3 hxe hev))
        | none =>
          rcases (XR.bind_eq_ok _ _ _ _).mp hc with ⟨ev, m3, m4, hxe, hce, rfl⟩
          replace hce : pickApplyDone rt2 anyAgg frags ev = XR.ok v m4 := hce
          have hlto : 3 * sizeOf o < n := by simp at hsz; omega
          rcases pickApplyDone_err rt2 anyAgg frags ev v m4 hce he with
            hm4 | ⟨w, hw, hwe⟩ | hev
          · exact append_ne_nil_right _ _ (append_ne_nil_right _ _ hm4)
          · rcases hL.2 rt2 anyAgg frags rfl w hw hwe with hm1 | ⟨w0, hw0, _⟩
            · exact append_ne_nil_left _ _ hm1
            · exact absurd hw0 (by simp)
          · exact append_ne_nil_right _ _ (append_ne_nil_left _ _
              ((IH _ hlto).1 o fs le_rfl hrfo hfs ev m3 hxe hev))
    all_goals
      intro v m h he
      simp only [applyE] at h
      rcases (XR.bind_eq_ok _ _ _ _).mp h with ⟨lv, m1, m2, hx1, hc, hm⟩
      subst hm
      rcases (XR.bind_eq_ok _ _ _ _).mp hc with ⟨rv, m3, m4, hx2, hc2, rfl⟩
      rcases hab : applyBinaryV lv op rv with ⟨v2, ms⟩
      rw [hab] at hc2
      simp only [logList, XR.ok_bind, XR.pure_def, XR.mapMsgs_ok] at hc2
      rcases (XR.ok.injEq _ _ _ _).mp hc2 with ⟨hv, hm4⟩
      rw [← hv] at he
      exact append_ne_nil_right _ _ (append_ne_nil_right _ _ (by
        rw [← hm4]
        simpa using applyBinaryV_err lv op rv v2 ms hab he))
  · -- caseLoop
    intro whens fs rt agg hsz hrfw hfs
    cases whens with
    | nil =>
      intro s m h
      simp only [caseLoop] at h
      rcases (XR.ok.injEq _ _ _ _).mp h with ⟨hs, hm⟩
      constructor
      · intro e hse
        rw [← hs] at hse
        exact absurd hse (by simp)
      · intro rt2 agg2 frags hse w hw hwe
        rw [← hs] at hse
        simp only [Sum.inr.injEq, Prod.mk.injEq] at hse
        obtain ⟨h1, _, _⟩ := hse
        exact Or.inr ⟨w, h1.trans hw, hwe⟩
    | cons wt rest =>
      obtain ⟨w0, t0⟩ := wt
      intro s m h
      simp only [caseLoop] at h
      rcases (XR.bind_eq_ok _ _ _ _).mp h with ⟨wv, m1, m2, hxw, hc, hm⟩
      subst hm
      rcases (XR.bind_eq_ok _ _ _ _).mp hc with ⟨tv, m3, m4, hxt, hc2, rfl⟩
      simp only [rangeFreeWhens, Bool.and_eq_true] at hrfw
      obtain ⟨⟨hrw0, hrt0⟩, hrrest⟩ := hrfw
      have hltr : 3 * sizeOf rest < n := by simp at hsz; omega
      have hltt : 3 * sizeOf t0 < n := by simp at hsz; omega
      split at hc2
      next hnn =>
        split at hc2
        next rtv =>
          split at hc2
          next hteq =>
            rcases (XR.bind_eq_ok _ _ _ _).mp hc2 with ⟨res, m5, m6, hrest, hps, rfl⟩
            simp only [XR.pure_def] at hps
            rcases (XR.ok.injEq _ _ _ _).mp hps with ⟨hs, hm6⟩
            have hR := (IH _ hltr).2.2.1 rest fs (some tv) _ le_rfl hrrest hfs
              res m5 hrest
            constructor
            · intro e hse
              rw [← hs] at hse
              cases res with
              | inl e2 =>
                simp only [stepCons] at hse
                exact append_ne_nil_right _ _ (append_ne_nil_right _ _
                  (append_ne_nil_left _ _ (hR.1 e2 rfl)))
              | inr tr2 =>
                obtain ⟨rt3, agg3, fr3⟩ := tr2
                simp only [stepCons] at hse
                exact absurd hse (by simp)
            · intro rt2 agg2 frags hse w hw hwe
              rw [← hs] at hse
              cases res with
              | inl e2 =>
                simp only [stepCons] at hse
                exact absurd hse (by simp)
              | inr tr2 =>
                obtain ⟨rt3, agg3, fr3⟩ := tr2
                simp only [stepCons, Sum.inr.injEq, Prod.mk.injEq] at hse
                obtain ⟨h1, _, _⟩ := hse
                rcases hR.2 rt3 _ _ rfl w (h1.trans hw) hwe with hm5 | ⟨w1, hw1, hw1e⟩
                · exact Or.inl (append_ne_nil_right _ _ (append_ne_nil_right _ _
                    (append_ne_nil_left _ _ hm5)))
                · rcases Option.some_inj.mp hw1 with rfl
                  exact Or.inl (append_ne_nil_right _ _ (append_ne_nil_left _ _
                    ((IH _ hltt).1 t0 fs le_rfl hrt0 hfs tv m3 hxt hw1e)))
          next hteq =>
            rcases (XR.ok.injEq _ _ _ _).mp hc2 with ⟨hs, hm4⟩
            constructor
            · intro e hse
              exact append_ne_nil_right _ _ (append_ne_nil_right _ _
                (by rw [← hm4]; simp))
            · intro rt2 agg2 frags hse w hw hwe
              rw [← hs] at hse
              exact absurd hse (by simp)
        next =>
          rcases (XR.bind_eq_ok _ _ _ _).mp hc2 with ⟨res, m5, m6, hrest, hps, rfl⟩
          simp only [XR.pure_def] at hps
          rcases (XR.ok.injEq _ _ _ _).mp hps with ⟨hs, hm6⟩
          have hR := (IH _ hltr).2.2.1 rest fs (some tv) _ le_rfl hrrest hfs
            res m5 hrest
          constructor
          · intro e hse
            rw [← hs] at hse
            cases res with
            | inl e2 =>
              simp only [stepCons] at hse
              exact append_ne_nil_right _ _ (append_ne_nil_right _ _
                (append_ne_nil_left _ _ (hR.1 e2 rfl)))
            | inr tr2 =>
              obtain ⟨rt3, agg3, fr3⟩ := tr2
              simp only [stepCons] at hse
              exact absurd hse (by simp)
          · intro rt2 agg2 frags hse w hw hwe
            rw [← hs] at hse
            cases res with
            | inl e2 =>
              simp only [stepCons] at hse
              exact absurd hse (by simp)
            | inr tr2 =>
              obtain ⟨rt3, agg3, fr3⟩ := tr2
              simp only [stepCons, Sum.inr.injEq, Prod.mk.injEq] at hse
              obtain ⟨h1, _, _⟩ := hse
              rcases hR.2 rt3 _ _ rfl w (h1.trans hw) hwe with hm5 | ⟨w1, hw1, hw1e⟩
              · exact Or.inl (append_ne_nil_right _ _ (append_ne_nil_right _ _
                  (append_ne_nil_left _ _ hm5)))
              · rcases Option.some_inj.mp hw1 with rfl
                exact Or.inl (append_ne_nil_right _ _ (append_ne_nil_left _ _
                  ((IH _ hltt).1 t0 fs le_rfl hrt0 hfs tv m3 hxt hw1e)))
      next hnn =>
        rcases (XR.bind_eq_ok _ _ _ _).mp hc2 with ⟨res, m5, m6, hrest, hps, rfl⟩
        simp only [XR.pure_def] at hps
        rcases (XR.ok.injEq _ _ _ _).mp hps with ⟨hs, hm6⟩
        have hR := (IH _ hltr).2.2.1 rest fs rt _ le_rfl hrrest hfs res m5 hrest
        constructor
        · intro e hse
          rw [← hs] at hse
          cases res with
          | inl e2 =>
            simp only [stepCons] at hse
            exact append_ne_nil_right _ _ (append_ne_nil_right _ _
              (append_ne_nil_left _ _ (hR.1 e2 rfl)))
          | inr tr2 =>
            obtain ⟨rt3, agg3, fr3⟩ := tr2
            simp only [stepCons] at hse
            exact absurd hse (by simp)
        · intro rt2 agg2 frags hse w hw hwe
          rw [← hs] at hse
          cases res with
          | inl e2 =>
            simp only [stepCons] at hse
            exact absurd hse (by simp)
          | inr tr2 =>
            obtain ⟨rt3, agg3, fr3⟩ := tr2
            simp only [stepCons, Sum.inr.injEq, Prod.mk.injEq] at hse
            obtain ⟨h1, _, _⟩ := hse
            rcases hR.2 rt3 _ _ rfl w (h1.trans hw) hwe with hm5 | hbad
            · exact Or.inl (append_ne_nil_right _ _ (append_ne_nil_right _ _
                (append_ne_nil_left _ _ hm5)))
            · exact Or.inr hbad
  · -- pickTransLoop
    intro choices fs hsz hrfc hfs
    cases choices with
    | nil =>
      intro s m h
      simp only [pickTransLoop] at h
      rcases (XR.ok.injEq _ _ _ _).mp h with ⟨hs, hm⟩
      constructor
      · intro e hse
        rw [← hs] at hse
        exact absurd hse (by simp)
      · intro cvs hse pv wv hmem hpe
        rw [← hs] at hse
        simp only [Sum.inr.injEq] at hse
        rw [← hse] at hmem
        exact absurd hmem (by simp)
    | cons c rest =>
      obtain ⟨p, w0⟩ := c
      cases p with
      | none =>
        intro s m h
        simp only [pickTransLoop] at h
        rcases (XR.ok.injEq _ _ _ _).mp h with ⟨hs, hm⟩
        constructor
        · intro e hse
          rw [← hm]
          simp
        · intro cvs hse pv wv hmem hpe
          rw [← hs] at hse
          exact absurd hse (by simp)
      | some pe =>
        intro s m h
        simp only [pickTransLoop] at h
        rcases (XR.bind_eq_ok _ _ _ _).mp h with ⟨rq, m1, m2, hx1, hc, hm⟩
        subst hm
        simp only [rangeFreeChoices, Bool.and_eq_true] at hrfc
        obtain ⟨⟨hrp, hrw⟩, hrrest⟩ := hrfc
        simp only [rangeFreeOpt] at hrp
        have hltp : 3 * sizeOf pe < n := by simp at hsz; omega
        have hltr : 3 * sizeOf rest < n := by simp at hsz; omega
        cases rq with
        | none =>
          rcases (XR.ok.injEq _ _ _ _).mp hc with ⟨hs, hm2⟩
          constructor
          · intro e hse
            exact append_ne_nil_right _ _ (by rw [← hm2]; simp)
          · intro cvs hse pv wv hmem hpe
            rw [← hs] at hse
            exact absurd hse (by simp)
        | some rv0 =>
          rcases (XR.bind_eq_ok _ _ _ _).mp hc with ⟨pv1, m3, m4, hxp, hc2, rfl⟩
          rcases (XR.bind_eq_ok _ _ _ _).mp hc2 with ⟨wv1, m5, m6, hxw, hc3, rfl⟩
          rcases (XR.bind_eq_ok _ _ _ _).mp hc3 with ⟨res, m7, m8, hrest, hps, rfl⟩
          simp only [XR.pure_def] at hps
          rcases (XR.ok.injEq _ _ _ _).mp hps with ⟨hs, hm8⟩
          have hR := (IH _ hltr).2.2.2.1 rest fs le_rfl hrrest hfs res m7 hrest
          constructor
          · intro e hse
            rw [← hs] at hse
            cases res with
            | inl e2 =>
              replace hse : (Sum.inl e2 : Sum ExprValue (List (ExprValue × ExprValue)))
                = Sum.inl e := hse
              exact append_ne_nil_right _ _ (append_ne_nil_right _ _
                (append_ne_nil_right _ _ (append_ne_nil_left _ _ (hR.1 e2 rfl))))
            | inr cvs2 =>
              replace hse : (Sum.inr ((pv1, wv1) :: cvs2) :
                Sum ExprValue (List (ExprValue × ExprValue))) = Sum.inl e := hse
              exact absurd hse (by simp)
          · intro cvs hse pv wv hmem hpe
            rw [← hs] at hse
            cases res with
            | inl e2 =>
              replace hse : (Sum.inl e2 : Sum ExprValue (List (ExprValue × ExprValue)))
                = Sum.inr cvs := hse
              exact absurd hse (by simp)
            | inr cvs2 =>
              replace hse : (Sum.inr ((pv1, wv1) :: cvs2) :
                Sum ExprValue (List (ExprValue × ExprValue))) = Sum.inr cvs := hse
              simp only [Sum.inr.injEq] at hse
              rw [← hse] at hmem
              rcases List.mem_cons.mp hmem with heq | hmem2
              · obtain ⟨h1, _⟩ := (Prod.mk.injEq _ _ _ _).mp heq
                exact append_ne_nil_right _ _ (append_ne_nil_left _ _
                  ((IH _ hltp).1 pe fs le_rfl hrp hfs pv1 m3 hxp (h1 ▸ hpe)))
              · exact append_ne_nil_right _ _ (append_ne_nil_right _ _
                  (append_ne_nil_right _ _ (append_ne_nil_left _ _
                    (hR.2 cvs2 rfl pv wv hmem2 hpe))))
  · -- pickApplyLoop
    intro choices fs o rt agg hsz hrfc hrfo hfs
    cases choices with
    | nil =>
      intro s m h
      simp only [pickApplyLoop] at h
      rcases (XR.ok.injEq _ _ _ _).mp h with ⟨hs, hm⟩
      constructor
      · intro e hse
        rw [← hs] at hse
        exact absurd hse (by simp)
      · intro rt2 agg2 frags hse w hw hwe
        rw [← hs] at hse
        simp only [Sum.inr.injEq, Prod.mk.injEq] at hse
        obtain ⟨h1, _, _⟩ := hse
        exact Or.inr ⟨w, h1.trans hw, hwe⟩
    | cons c rest =>
      obtain ⟨p, w0⟩ := c
      intro s m h
      simp only [pickApplyLoop] at h
      rcases (XR.bind_eq_ok _ _ _ _).mp h with ⟨wv, m1, m2, hxw, hc, hm⟩
      subst hm
      rcases (XR.bind_eq_ok _ _ _ _).mp hc with ⟨tv, m3, m4, hxt, hc2, rfl⟩
      simp only [rangeFreeChoices, Bool.and_eq_true] at hrfc
      obtain ⟨⟨hrp, hrw⟩, hrrest⟩ := hrfc
      have hltr : 3 * (sizeOf rest + sizeOf o) + 2 < n := by simp at hsz; omega
      have hT : tv.dataType = FieldValueType.error → m3 ≠ [] := by
        cases p with
        | some pe =>
          intro htv
          simp only [pickThen] at hxt
          simp only [rangeFreeOpt] at hrp
          have hltp : 3 * sizeOf pe < n := by simp at hsz; omega
          exact (IH _ hltp).1 pe fs le_rfl hrp hfs tv m3 hxt htv
        | none =>
          intro htv
          simp only [pickThen] at hxt
          have hlto : 3 * sizeOf o < n := by simp at hsz; omega
          exact (IH _ hlto).1 o fs le_rfl hrfo hfs tv m3 hxt htv
      split at hc2
      next rtv =>
        split at hc2
        next hteq =>
          rcases (XR.bind_eq_ok _ _ _ _).mp hc2 with ⟨res, m5, m6, hrest, hps, rfl⟩
          simp only [XR.pure_def] at hps
          rcases (XR.ok.injEq _ _ _ _).mp hps with ⟨hs, hm6⟩
          have hR := (IH _ hltr).2.2.2.2 rest fs o (some rtv) _ le_rfl hrrest
            hrfo hfs res m5 hrest
          constructor
          · intro e hse
            rw [← hs] at hse
            cases res with
            | inl e2 =>
              simp only [stepCons] at hse
              exact append_ne_nil_right _ _ (append_ne_nil_right _ _
                (append_ne_nil_left _ _ (hR.1 e2 rfl)))
            | inr tr2 =>
              obtain ⟨rt3, agg3, fr3⟩ := tr2
              simp only [stepCons] at hse
              exact absurd hse (by simp)
          · intro rt2 agg2 frags hse w hw hwe
            rw [← hs] at hse
            cases res with
            | inl e2 =>
              simp only [stepCons] at hse
              exact absurd hse (by simp)
            | inr tr2 =>
              obtain ⟨rt3, agg3, fr3⟩ := tr2
              simp only [stepCons, Sum.inr.injEq, Prod.mk.injEq] at hse
              obtain ⟨h1, _, _⟩ := hse
              rcases hR.2 rt3 _ _ rfl w (h1.trans hw) hwe with hm5 | ⟨w1, hw1, hw1e⟩
              · exact Or.inl (append_ne_nil_right _ _ (append_ne_nil_right _ _
                  (append_ne_nil_left _ _ hm5)))
              · exact Or.inr ⟨w1, hw1, hw1e⟩
        next hteq =>
          rcases (XR.ok.injEq _ _ _ _).mp hc2 with ⟨hs, hm4⟩
          constructor
          · intro e hse
            exact append_ne_nil_right _ _ (append_ne_nil_right _ _
              (by rw [← hm4]; simp))
          · intro rt2 agg2 frags hse w hw hwe
            rw [← hs] at hse
            exact absurd hse (by simp)
      next =>
        rcases (XR.bind_eq_ok _ _ _ _).mp hc2 with ⟨res, m5, m6, hrest, hps, rfl⟩
        simp only [XR.pure_def] at hps
        rcases (XR.ok.injEq _ _ _ _).mp hps with ⟨hs, hm6⟩
        have hR := (IH _ hltr).2.2.2.2 rest fs o (some tv) _ le_rfl hrrest
          hrfo hfs res m5 hrest
        constructor
        · intro e hse
          rw [← hs] at hse
          cases res with
          | inl e2 =>
            simp only [stepCons] at hse
            exact append_ne_nil_right _ _ (append_ne_nil_right _ _
              (append_ne_nil_left _ _ (hR.1 e2 rfl)))
          | inr tr2 =>
            obtain ⟨rt3, agg3, fr3⟩ := tr2
            simp only [stepCons] at hse
            exact absurd hse (by simp)
        · intro rt2 agg2 frags hse w hw hwe
          rw [← hs] at hse
          cases res with
          | inl e2 =>
            simp only [stepCons] at hse
            exact absurd hse (by simp)
          | inr tr2 =>
            obtain ⟨rt3, agg3, fr3⟩ := tr2
            simp only [stepCons, Sum.inr.injEq, Prod.mk.injEq] at hse
            obtain ⟨h1, _, _⟩ := hse
            rcases hR.2 rt3 _ _ rfl w (h1.trans hw) hwe with hm5 | ⟨w1, hw1, hw1e⟩
            · exact Or.inl (append_ne_nil_right _ _ (append_ne_nil_right _ _
                (append_ne_nil_left _ _ hm5)))
            · rcases Option.some_inj.mp hw1 with rfl
              exact Or.inl (append_ne_nil_right _ _ (append_ne_nil_left _ _
                (hT hw1e)))


/-- C3 amended: for every Range-free expression over a field space with no
error-typed entries, a translation that returns an error-typed value has
logged at least one diagnostic; `Range.translation` itself is the exception
the code carves out — it returns an error value silently (see
`range_translation_silent`). -/
theorem error_implies_logged (e : Expr) (fs : FieldSpace)
    (hrf : rangeFree e = true) (hfs : okFS fs) (v : ExprValue) (m : List String)
    (h : translation e fs = .ok v m) (he : v.dataType = FieldValueType.error) :
    m ≠ [] :=
  (master (3 * sizeOf e)).1 e fs le_rfl hrf hfs v m h he

/-- C3 witness: the undefined-field error over the empty field space comes
with its one diagnostic. -/
theorem error_implies_logged_witness :
    (["Reference to undefined field 'y"] : List String) ≠ [] :=
  error_implies_logged (.ExprField "y") fsEmpty (by simp [rangeFree])
    (fun nm entry h => by simp [fsEmpty] at h)
    ⟨.error, false, [], none⟩ ["Reference to undefined field 'y"]
    (by simp [translation, fsEmpty, errorFor]) rfl

end Malloy
